import Mathlib

/-! Robin client request/reply helper and server acceptor loop.

A shallow embedding of `robin/src/robin_api.c` and of `main` in
`robin/src/robin_server.c`, with the properties of both that the
specification states.

Modelling conventions.

* A C string is the list of its bytes before the terminating NUL.
* The socket helpers of `lib/socket.h` (`socket_sendn`, `socket_recvline`,
  `socket_accept_connection`, ...) are not part of the sources at hand; their
  outcomes are inputs of the model: a socket carries the list of outcomes of
  the calls still to come and a log of what was handed to it.
* In `robin_api.c` a heap allocation (`malloc`, `calloc`, `realloc`) whose size
  fits `size_t` succeeds, also for a request of zero bytes; the count
  `reply_ret + 2` given to `calloc` is computed in `int` (32 bits, wrapping) and
  converted to `size_t`, and `calloc` fails when the array does not fit
  `size_t`.  The value `strtol` yields is converted to `int` explicitly.
  Lengths of strings stay in the range of `int`.
* Undefined behaviour of the C code is an explicit `Except.error`.
-/

deriving instance DecidableEq for Except

namespace Robin

/-! ## libc -/

/-- Ways the model of the API code stops without a result: undefined behaviour
of the C code, or the fuel of a loop model running out. -/
inductive Fault where
  /-- a `memcpy(dst + off, _, n)` whose length is negative or that leaves the
  `cap` bytes allocated for `dst` -/
  | badCopy (off n : Int) (cap : Nat)
  /-- a store through the null pointer returned by `strchr` -/
  | nullDeref
  /-- the fuel given to a loop model ran out (the C loop would still run) -/
  | outOfFuel
  deriving DecidableEq, Repr

/-- An argument of a `printf`-style call. -/
inductive Arg where
  | str (s : List Char)
  | int (n : Int)
  deriving DecidableEq, Repr

/-- Output of `vsnprintf` for the conversions the API uses: `%s` and `%.*s`
(a negative precision counts as no precision). -/
def vformat : List Char → List Arg → List Char
  | [], _ => []
  | '%' :: 's' :: fmt, Arg.str s :: args => s ++ vformat fmt args
  | '%' :: '.' :: '*' :: 's' :: fmt, Arg.int p :: Arg.str s :: args =>
      (if p < 0 then s else s.take p.toNat) ++ vformat fmt args
  | c :: fmt, args => c :: vformat fmt args

/-- Character class `isspace` of the C locale. -/
def isspace (c : Char) : Bool :=
  c = ' ' || c = '\t' || c = '\n' || c = '\x0b' || c = '\x0c' || c = '\r'

/-- Largest `long` (LP64). -/
def LONG_MAX : Int := 9223372036854775807

/-- Smallest `long` (LP64). -/
def LONG_MIN : Int := -9223372036854775808

/-- Value of a run of decimal digits. -/
def digitsValue (ds : List Char) : Nat :=
  ds.foldl (fun acc c => acc * 10 + (c.toNat - 48)) 0

/-- The call `strtol(s, NULL, 10)`: leading white space, an optional sign, the
longest run of digits; out-of-range values are clamped to `long`. -/
def strtol (s : List Char) : Int :=
  let s1 := s.dropWhile isspace
  let v (r : List Char) : Int := (digitsValue (r.takeWhile Char.isDigit) : Int)
  match s1 with
  | '-' :: r => max (-(v r)) LONG_MIN
  | '+' :: r => min (v r) LONG_MAX
  | r => min (v r) LONG_MAX

/-- Conversion of a `long` to `int` (32 bits, two's complement). -/
def toInt32 (v : Int) : Int := (v + 2147483648) % 4294967296 - 2147483648

/-- Largest `size_t` (LP64). -/
def SIZE_MAX : Int := 18446744073709551615

/-- Conversion of an `int` to `size_t` (64 bits). -/
def toSize (v : Int) : Int := v % 18446744073709551616

/-- Size of a pointer, `sizeof(char *)` (LP64). -/
def sizeof_ptr : Int := 8

/-- The call `calloc(nmemb, sizeof(char *))` with an `int` count: the null
pointer (`none`) when the array does not fit `size_t`, else an array of null
pointers. -/
def calloc (nmemb : Int) : Option (List (Option (List Char))) :=
  if toSize nmemb * sizeof_ptr > SIZE_MAX then none
  else some (List.replicate (toSize nmemb).toNat none)

/-- Offset of the first occurrence of `c` in `s`, the result of `strchr(s, c)`
relative to `s`; `none` is the null pointer. -/
def strchr : List Char → Char → Option Nat
  | [], _ => none
  | x :: xs, c => if x = c then some 0 else (strchr xs c).map (· + 1)

/-- The call `realloc(p, n)` on a buffer of bytes: the old contents up to `n`,
padded with bytes that the caller has still to write. -/
def realloc (p : List Char) (n : Nat) : List Char :=
  p.take n ++ List.replicate (n - p.length) '\x00'

/-- The call `memcpy(dst + off, src, n)` where `dst` has `dst.length` bytes
allocated. -/
def memcpy (dst : List Char) (off : Int) (src : List Char) (n : Int) :
    Except Fault (List Char) :=
  if 0 ≤ n ∧ 0 ≤ off ∧ off + n ≤ dst.length ∧ n ≤ src.length then
    .ok (dst.take off.toNat ++ src.take n.toNat ++ dst.drop (off.toNat + n.toNat))
  else
    .error (.badCopy off n dst.length)

/-! ## The socket -/

/-- Outcome of one `socket_recvline` call: a failure, or a line (given without
its terminating newline). -/
inductive Recv where
  | fail
  | line (l : List Char)
  deriving DecidableEq, Repr

/-- The client socket together with the static data of `robin_api.c`. -/
structure Sock where
  /-- outcomes of the `socket_sendn` calls to come (`true`: success; with none
  left the call fails) -/
  sendRes : List Bool
  /-- the bytes handed to `socket_sendn` so far, one entry per call -/
  sent : List (List Char)
  /-- outcomes of the `socket_recvline` calls to come (with none left the call
  fails) -/
  inc : List Recv
  /-- contents of the static `msg_buf` -/
  msg_buf : List Char
  deriving DecidableEq, Repr

/-- Modelled from the spec: socket_sendn (the send-all helper, which retries
short writes) takes the first `n` bytes of `buf`; the call either sends them
all or fails with a negative result.  The bytes handed over are logged in
either case. -/
def socket_sendn (s : Sock) (buf : List Char) (n : Nat) : Int × Sock :=
  let s1 : Sock := { s with sent := s.sent ++ [buf.take n], sendRes := s.sendRes.tail }
  match s.sendRes with
  | true :: _ => (0, s1)
  | _ => (-1, s1)

/-- Modelled from the spec: socket_recvline (line framing helper, section 4.1)
delivers exactly one line with its terminator, the terminator counted in the
returned length, or fails with a negative result.  The result is the returned
length `nbuf` and the contents of the scratch buffer `vbuf`, read as a C
string: the line and its terminator.  A stream without outcome left is a closed
connection. -/
def socket_recvline (s : Sock) : Int × List Char × Sock :=
  match s.inc with
  | Recv.line l :: rest => ((l.length : Int) + 1, l ++ ['\n'], { s with inc := rest })
  | Recv.fail :: rest => (-1, [], { s with inc := rest })
  | [] => (-1, [], s)

/-! ## Local functions of `robin_api.c` -/

/-- The function `_ra_send`: format into `msg_buf`, send all but the NUL. -/
def _ra_send (s : Sock) (fmt : List Char) (args : List Arg) : Int × Sock :=
  -- msg_len = vsnprintf(NULL, 0, fmt, args) + 1
  let msg_len : Nat := (vformat fmt args).length + 1
  -- msg_buf = realloc(msg_buf, msg_len); vsnprintf(msg_buf, msg_len, fmt, args)
  let s1 : Sock := { s with msg_buf := (vformat fmt args ++ ['\x00']).take msg_len }
  -- socket_sendn(client_fd, msg_buf, msg_len - 1): the NUL is not sent
  let r := socket_sendn s1 s1.msg_buf (msg_len - 1)
  if r.1 < 0 then (-1, r.2) else (0, r.2)

/-- The macro `ra_send`: `_ra_send` with a newline appended to the format. -/
def ra_send (s : Sock) (fmt : List Char) (args : List Arg) : Int × Sock :=
  _ra_send s (fmt ++ ['\n']) args

/-- What `ra_wait_reply` hands back. -/
inductive WaitReply where
  /-- result `-1`; the out-parameters are left alone -/
  | err
  /-- result `0` with `*replies` and `*nrep` -/
  | ok (replies : List (Option (List Char))) (nrep : Int)
  deriving DecidableEq, Repr

/-- The `for` loop of `ra_wait_reply`: `n` iterations left, index `i`. -/
def waitLoop : Nat → Nat → Sock → List (Option (List Char)) →
    Option (List (Option (List Char))) × Sock
  | 0, _, s, l => (some l, s)
  | n + 1, i, s, l =>
    -- nbuf = socket_recvline(...), the line in vbuf
    let r := socket_recvline s
    -- a failed read: ra_free_reply(l); return -1
    if r.1 < 0 then (none, r.2.2)
    -- l[i + 1] = the first nbuf - 1 bytes of vbuf, NUL-terminated
    else waitLoop n (i + 1) r.2.2 (l.set (i + 1) (some (r.2.1.take (r.1 - 1).toNat)))

/-- The function `ra_wait_reply`. -/
def ra_wait_reply (s : Sock) : WaitReply × Sock :=
  -- nbuf = socket_recvline(...), the line in vbuf
  let r := socket_recvline s
  if r.1 < 0 then (.err, r.2.2)
  else
    -- reply_ret = strtol(vbuf, NULL, 10), stored in an int
    let reply_ret : Int := toInt32 (strtol r.2.1)
    -- l = calloc(2, ...) or calloc(reply_ret + 2, ...), the sum taken in int
    match (if reply_ret < 0 then calloc 2 else calloc (toInt32 (reply_ret + 2))) with
    -- if (!l) return -1
    | none => (.err, r.2.2)
    | some l =>
      -- l[0] = the first nbuf - 1 bytes of vbuf, NUL-terminated
      let l := l.set 0 (some (r.2.1.take (r.1 - 1).toNat))
      if reply_ret > 0 then
        match waitLoop reply_ret.toNat 0 r.2.2 l with
        | (none, s2) => (.err, s2)
        | (some l2, s2) => (.ok l2 reply_ret, s2)
      else (.ok l reply_ret, r.2.2)

/-- The status `ra_wait_reply` reads from a received line: `strtol` applied to
the scratch buffer, which holds the line and its terminator, converted to
`int`. -/
def replyStatus (line : List Char) : Int := toInt32 (strtol (line ++ ['\n']))

/-! ## Exported functions of `robin_api.c` -/

/-- What the `data` field of a reply points to. -/
inductive ReplyData where
  /-- an array of `int` -/
  | ints (l : List Int)
  /-- an array of strings; `none` is a null pointer -/
  | lines (l : List (Option (List Char)))
  deriving DecidableEq, Repr

/-- The block the `free_ptr` field of a reply points to: the `results` array
of `robin_api_follow`, or the array `replies` of `robin_api_followers` (whose
first line and terminator have been freed). -/
inductive FreePtr where
  | results
  | replies
  deriving DecidableEq, Repr

/-- The reply structure `robin_reply_t` filled in by `follow` and `followers`
(its declaration in `robin_api.h` is not among the sources; the fields are the
ones `robin_api.c` assigns). -/
structure robin_reply_t where
  n : Int
  data : ReplyData
  free_ptr : FreePtr
  deriving DecidableEq, Repr

/-- The function `robin_api_register`: result and socket afterwards. -/
def robin_api_register (s : Sock) (email password : List Char) : Int × Sock :=
  let r := ra_send s "register %s %s".toList [.str email, .str password]
  if r.1 ≠ 0 then (-1, r.2)
  else
    match ra_wait_reply r.2 with
    | (.err, s2) => (-1, s2)
    | (.ok _ nrep, s2) => if nrep < 0 then (nrep, s2) else (0, s2)

/-- The function `robin_api_login`. -/
def robin_api_login (s : Sock) (email password : List Char) : Int × Sock :=
  let r := ra_send s "login %s %s".toList [.str email, .str password]
  if r.1 ≠ 0 then (-1, r.2)
  else
    match ra_wait_reply r.2 with
    | (.err, s2) => (-1, s2)
    | (.ok _ nrep, s2) => if nrep < 0 then (nrep, s2) else (0, s2)

/-- The function `robin_api_logout`. -/
def robin_api_logout (s : Sock) : Int × Sock :=
  let r := ra_send s "logout".toList []
  if r.1 ≠ 0 then (-1, r.2)
  else
    match ra_wait_reply r.2 with
    | (.err, s2) => (-1, s2)
    | (.ok _ nrep, s2) => if nrep < 0 then (nrep, s2) else (0, s2)

/-- The `for` loop of `robin_api_follow`: `n` iterations left, index `i`; each
one cuts `replies[i + 1]` at its first space and parses what follows. -/
def followLoop : Nat → Nat → List (Option (List Char)) → List Int →
    Except Fault (List (Option (List Char)) × List Int)
  | 0, _, replies, results => .ok (replies, results)
  | n + 1, i, replies, results =>
    match replies.get? (i + 1) with
    | some (some line) =>
      -- res = strchr(replies[i + 1], ' ')
      match strchr line ' ' with
      | some k =>
        -- *(res++) = 0 cuts the line; results[i] = strtol(res, NULL, 10)
        followLoop n (i + 1) (replies.set (i + 1) (some (line.take k)))
          (results.set i (toInt32 (strtol (line.drop (k + 1)))))
      | none => .error .nullDeref
    | _ => .error .nullDeref

/-- The function `robin_api_follow`: the socket afterwards, and the result
with the reply structure when it was filled in. -/
def robin_api_follow (s : Sock) (emails : List Char) :
    Sock × Except Fault (Int × Option robin_reply_t) :=
  let r := ra_send s "follow %s".toList [.str emails]
  if r.1 ≠ 0 then (r.2, .ok (-1, none))
  else
    match ra_wait_reply r.2 with
    | (.err, s2) => (s2, .ok (-1, none))
    | (.ok replies nrep, s2) =>
      if nrep < 0 then (s2, .ok (nrep, none))
      else
        (s2, (followLoop nrep.toNat 0 replies (List.replicate nrep.toNat 0)).map
          fun p => (nrep, some { n := nrep, data := .ints p.2, free_ptr := .results }))

/-- The `do ... while (next)` loop of `robin_api_cip` on the state `last`,
`msg_to_send`, `len`; the result is `msg_to_send` and `len` after the loop. -/
def cipLoop : Nat → List Char → List Char → Int → Except Fault (List Char × Int)
  | 0, _, _, _ => .error .outOfFuel
  | fuel + 1, last, msg_to_send, len =>
    -- next = strchr(last, LF)
    let next := strchr last '\n'
    -- delta = next - last + 1 when a newline was found, strlen(last) otherwise
    let delta : Int :=
      match next with
      | some k => (k : Int) + 1
      | none => (last.length : Int)
    -- msg_to_send = realloc(msg_to_send, len + delta)
    let msg_to_send := realloc msg_to_send (len + delta).toNat
    match next with
    | some k =>
      -- memcpy(msg_to_send + len, last, delta - 2)
      (memcpy msg_to_send len last (delta - 2)).bind fun b1 =>
      -- memcpy(msg_to_send + len + delta - 2, backslash n, 2)
      (memcpy b1 (len + delta - 2) ['\\', 'n'] 2).bind fun b2 =>
      -- len += delta; last = next + 1; the loop goes on
      cipLoop fuel (last.drop (k + 1)) b2 (len + delta)
    | none =>
      -- memcpy(msg_to_send + len, last, delta); len += delta; the loop ends
      (memcpy msg_to_send len last delta).bind fun b1 => .ok (b1, len + delta)

/-- The encoding part of `robin_api_cip`: the loop started with `last = msg`,
`msg_to_send = NULL`, `len = 0`.  Every iteration but the last consumes a
newline of `msg`, so `msg.length + 1` iterations are enough. -/
def cipEncode (msg : List Char) : Except Fault (List Char × Int) :=
  cipLoop (msg.length + 1) msg [] 0

/-- The function `robin_api_cip`. -/
def robin_api_cip (s : Sock) (msg : List Char) : Except Fault (Int × Sock) :=
  (cipEncode msg).bind fun e =>
    -- ra_send with the format of the cip request and the arguments len, msg_to_send
    let r := ra_send s "cip \"%.*s\"".toList [.int e.2, .str e.1]
    if r.1 ≠ 0 then .ok (-1, r.2)
    else
      match ra_wait_reply r.2 with
      | (.err, s2) => .ok (-1, s2)
      | (.ok _ nrep, s2) => if nrep < 0 then .ok (nrep, s2) else .ok (0, s2)

/-- The function `robin_api_followers`: result, the reply structure when it
was filled in, and the socket afterwards. -/
def robin_api_followers (s : Sock) : Int × Option robin_reply_t × Sock :=
  let r := ra_send s "followers".toList []
  if r.1 ≠ 0 then (-1, none, r.2)
  else
    match ra_wait_reply r.2 with
    | (.err, s2) => (-1, none, s2)
    | (.ok replies nrep, s2) =>
      if nrep < 0 then (nrep, none, s2)
      -- free(replies[0]); free(replies[nrep + 1]); data = &replies[1]
      else (0, some { n := nrep, data := .lines (replies.drop 1), free_ptr := .replies }, s2)

/-! ## `main` of `robin_server.c` -/

/-- Value of `EINTR` (Linux). -/
def EINTR : Int := 4

/-- Value of `SIGINT`. -/
def SIGINT : Int := 2

/-- Value of `EXIT_FAILURE`. -/
def EXIT_FAILURE : Int := 1

/-- Value of `EXIT_SUCCESS`. -/
def EXIT_SUCCESS : Int := 0

/-- Outcome of one `socket_accept_connection` call: the new descriptor, or a
failure with `errno` and the value of `signal_caught` at that moment. -/
inductive Accept where
  | ok (fd : Int)
  | fail (errno signal_caught : Int)
  deriving DecidableEq, Repr

/-- Outcomes of the calls `main` makes: results of the start-up calls and the
outcomes of the successive accepts. -/
structure Boot where
  /-- result of `sigaction` -/
  sigaction : Int
  argc : Int
  /-- whether `malloc` for the host name succeeds -/
  h_name_ok : Bool
  /-- result of `socket_open_listen` -/
  open_listen : Int
  /-- descriptor stored by `socket_open_listen` -/
  server_fd : Int
  /-- result of `socket_set_keepalive` -/
  keepalive : Int
  /-- result of `robin_thread_pool_init` -/
  pool_init : Int
  accepts : List Accept
  deriving DecidableEq, Repr

/-- Calls `main` makes to its collaborators, and its exit. -/
inductive Event where
  | sigaction
  | open_listen
  | set_keepalive (fd idle intvl cnt : Int)
  | pool_init
  | accept (fd : Int)
  | dispatch (fd : Int)
  | pool_free
  | user_free_all
  | socket_close (fd : Int)
  | exit (code : Int)
  deriving DecidableEq, Repr

/-- The `while (1)` loop of `main` run on the accept outcomes: the calls made,
and whether the loop was left (`false`: the outcomes are used up and the loop
is waiting in the next accept). -/
def serverLoop (server_fd : Int) : List Accept → List Event × Bool
  | [] => ([], false)
  | Accept.ok fd :: rest =>
    let r := serverLoop server_fd rest
    (Event.accept server_fd :: Event.dispatch fd :: r.1, r.2)
  | Accept.fail errno signal_caught :: rest =>
    if errno = EINTR ∧ signal_caught = SIGINT then ([Event.accept server_fd], true)
    else
      let r := serverLoop server_fd rest
      (Event.accept server_fd :: r.1, r.2)

/-- The function `main`: the calls made in order, ending with `exit` when the
process exits. -/
def main (b : Boot) : List Event :=
  if b.sigaction < 0 then [.sigaction, .exit EXIT_FAILURE]
  else if b.argc ≠ 3 then [.sigaction, .exit EXIT_FAILURE]
  else if !b.h_name_ok then [.sigaction, .exit EXIT_FAILURE]
  else if b.open_listen < 0 then [.sigaction, .open_listen, .exit EXIT_FAILURE]
  else if b.keepalive < 0 then
    [.sigaction, .open_listen, .set_keepalive b.server_fd 10 10 6, .exit EXIT_FAILURE]
  else if b.pool_init ≠ 0 then
    [.sigaction, .open_listen, .set_keepalive b.server_fd 10 10 6, .pool_init,
      .exit EXIT_FAILURE]
  else
    let r := serverLoop b.server_fd b.accepts
    [.sigaction, .open_listen, .set_keepalive b.server_fd 10 10 6, .pool_init] ++ r.1 ++
      (if r.2 then
        [.pool_free, .user_free_all, .socket_close b.server_fd, .exit EXIT_SUCCESS]
      else [])

/-- Exit code of `main`: the code of the `exit` event, if the run has one. -/
def exitCode (t : List Event) : Option Int :=
  t.findSome? fun e => match e with
    | .exit c => some c
    | _ => none

/-! ## Notions the properties are stated with -/

/-- The encoding of a message the specification describes: every newline
replaced by a backslash and the letter `n`, every other byte kept. -/
def specEnc : List Char → List Char
  | [] => []
  | c :: rest => (if c = '\n' then ['\\', 'n'] else [c]) ++ specEnc rest

/-- Whether every newline of a message directly follows a byte other than a
newline; `prevNL` tells that the position is the start of the message or
directly follows a newline. -/
def newlinesFollowBytes (prevNL : Bool) : List Char → Bool
  | [] => true
  | c :: rest =>
    if c = '\n' then !prevNL && newlinesFollowBytes true rest
    else newlinesFollowBytes false rest

/-- A message that does not begin with a newline and has no two newlines in a
row. -/
def noEmptySegment (msg : List Char) : Bool := newlinesFollowBytes true msg

/-- The items between the quotes of a quoted argument of the wire grammar,
`( [^"\\] | '\\' any )*`. -/
inductive QuotedItems : List Char → Prop where
  | nil : QuotedItems []
  | plain (c : Char) (rest : List Char) :
      c ≠ '"' → c ≠ '\\' → QuotedItems rest → QuotedItems (c :: rest)
  | escaped (c : Char) (rest : List Char) : QuotedItems rest → QuotedItems ('\\' :: c :: rest)

/-- A `cip` request line of the wire grammar: the opcode, one space, one quoted
argument, the terminating newline, and no other newline in the line. -/
def IsCipRequest (bytes : List Char) : Prop :=
  ∃ body : List Char, QuotedItems body ∧ '\n' ∉ body ∧
    bytes = "cip \"".toList ++ body ++ "\"\n".toList

/-- What `robin_api_cip` puts on the wire for `msg` on socket `s` is one `cip`
request line of the wire grammar. -/
def CipSendsRequestLine (s : Sock) (msg : List Char) : Prop :=
  ∃ (r : Int × Sock) (bytes : List Char),
    robin_api_cip s msg = .ok r ∧ r.2.sent = s.sent ++ [bytes] ∧ IsCipRequest bytes

/-- A signed decimal integer as it is written on a reply line. -/
def decimal (c : Int) : List Char := (toString c).toList

/-- A reply line of `follow`: the email, one space, the result code. -/
def followLine (p : List Char × Int) : List Char := p.1 ++ ' ' :: decimal p.2

/-- The result the request functions derive from what `ra_wait_reply` hands
back: `-1` when it failed, a negative status unchanged, `0` otherwise. -/
def replyResult : WaitReply → Int
  | .err => -1
  | .ok _ nrep => if nrep < 0 then nrep else 0

/-- The calls one accept outcome stands for in the loop of `main`: the accept,
and the dispatch of the descriptor when the accept succeeded. -/
def acceptCalls (server_fd : Int) : Accept → List Event
  | Accept.ok fd => [Event.accept server_fd, Event.dispatch fd]
  | Accept.fail _ _ => [Event.accept server_fd]

/-- The descriptor of a successful accept. -/
def accepted : Accept → Option Int
  | Accept.ok fd => some fd
  | Accept.fail _ _ => none

/-- The descriptor of a dispatch call. -/
def dispatched : Event → Option Int
  | Event.dispatch fd => some fd
  | _ => none

/-- The calls of `main` before the loop when start-up succeeds. -/
def startCalls (b : Boot) : List Event :=
  [.sigaction, .open_listen, .set_keepalive b.server_fd 10 10 6, .pool_init]

/-! ## Properties of the send and receive helpers -/

theorem ra_send_eq (s : Sock) (fmt : List Char) (args : List Arg) :
    ra_send s fmt args =
      (if s.sendRes.head? = some true then 0 else -1,
        { sendRes := s.sendRes.tail
          sent := s.sent ++ [vformat (fmt ++ ['\n']) args]
          inc := s.inc
          msg_buf := vformat (fmt ++ ['\n']) args ++ ['\x00'] }) := by
  have h1 : List.take ((vformat (fmt ++ ['\n']) args).length + 1)
      (vformat (fmt ++ ['\n']) args ++ ['\x00']) = vformat (fmt ++ ['\n']) args ++ ['\x00'] :=
    List.take_of_length_le (by simp)
  unfold ra_send _ra_send socket_sendn
  rcases h : s.sendRes with _ | ⟨b, sr⟩
  · simp [h1]
  · cases b <;> simp [h1]

theorem waitLoop_sock (n i : Nat) (s : Sock) (l : List (Option (List Char))) :
    (waitLoop n i s l).2.sendRes = s.sendRes ∧ (waitLoop n i s l).2.sent = s.sent ∧
      (waitLoop n i s l).2.msg_buf = s.msg_buf := by
  induction n generalizing i s l with
  | zero => simp [waitLoop]
  | succ n ih =>
    unfold waitLoop socket_recvline
    rcases h : s.inc with _ | ⟨o, rest⟩
    · simp
    · cases o with
      | fail => simp
      | line x =>
        have hx : ¬ ((x.length : Int) + 1 < 0) := by omega
        simp only [hx, if_false]
        exact ih _ _ _

theorem ra_wait_reply_sock (s : Sock) :
    (ra_wait_reply s).2.sendRes = s.sendRes ∧ (ra_wait_reply s).2.sent = s.sent ∧
      (ra_wait_reply s).2.msg_buf = s.msg_buf := by
  unfold ra_wait_reply socket_recvline
  rcases h : s.inc with _ | ⟨o, rest⟩
  · simp
  · cases o with
    | fail => simp
    | line x =>
      have hx : ¬ ((x.length : Int) + 1 < 0) := by omega
      simp only [hx, if_false]
      generalize (if toInt32 (strtol (x ++ ['\n'])) < 0 then calloc 2
        else calloc (toInt32 (toInt32 (strtol (x ++ ['\n'])) + 2))) = c
      cases c with
      | none => simp
      | some l =>
        simp only
        split
        · have h3 := waitLoop_sock (toInt32 (strtol (x ++ ['\n']))).toNat 0
            { s with inc := rest }
            (l.set 0 (some ((x ++ ['\n']).take ((x.length : Int) + 1 - 1).toNat)))
          split
          · rename_i heq
            rw [heq] at h3
            simpa using h3
          · rename_i heq
            rw [heq] at h3
            simpa using h3
        · simp

theorem socket_recvline_line (s : Sock) (x : List Char) (rest : List Recv)
    (h : s.inc = Recv.line x :: rest) :
    socket_recvline s = ((x.length : Int) + 1, x ++ ['\n'], { s with inc := rest }) := by
  simp [socket_recvline, h]

theorem socket_recvline_fail (s : Sock) (tail : List Recv)
    (h : tail = [] ∨ ∃ r, tail = Recv.fail :: r) (hs : s.inc = tail) :
    socket_recvline s = (-1, [], { s with inc := tail.tail }) := by
  rcases h with h | ⟨r, h⟩
  · subst h
    cases s
    simp_all [socket_recvline]
  · subst h
    simp [socket_recvline, hs]

theorem take_line (x : List Char) :
    (x ++ ['\n']).take ((x.length : Int) + 1 - 1).toNat = x := by
  simp

theorem waitLoop_lines (ls : List (List Char)) (i : Nat) (s : Sock)
    (pre : List (Option (List Char))) (tail : List Recv)
    (hinc : s.inc = ls.map Recv.line ++ tail) (hpre : pre.length = i + 1) :
    waitLoop ls.length i s (pre ++ List.replicate (ls.length + 1) none) =
      (some (pre ++ ls.map some ++ [none]), { s with inc := tail }) := by
  induction ls generalizing i s pre with
  | nil =>
    cases s
    simp_all [waitLoop]
  | cons x xs ih =>
    have hr := socket_recvline_line s x (xs.map Recv.line ++ tail) (by simpa using hinc)
    have hx : ¬ ((x.length : Int) + 1 < 0) := by omega
    simp only [List.length_cons, waitLoop, hr, hx, if_false, take_line]
    have hset : (pre ++ List.replicate (xs.length + 1 + 1) none).set (i + 1) (some x) =
        (pre ++ [some x]) ++ List.replicate (xs.length + 1) none := by
      rw [List.set_append_right _ _ (by omega)]
      simp [hpre, List.replicate_succ]
    rw [hset, ih (i + 1) _ (pre ++ [some x]) rfl (by simp [hpre])]
    simp

theorem waitLoop_fail (ls : List (List Char)) (n i : Nat) (s : Sock)
    (l : List (Option (List Char))) (tail : List Recv)
    (hinc : s.inc = ls.map Recv.line ++ tail) (hn : ls.length < n)
    (htail : tail = [] ∨ ∃ r, tail = Recv.fail :: r) :
    waitLoop n i s l = (none, { s with inc := tail.tail }) := by
  induction ls generalizing n i s l with
  | nil =>
    obtain ⟨m, rfl⟩ : ∃ m, n = m + 1 := ⟨n - 1, by simp at hn; omega⟩
    have hr := socket_recvline_fail s tail htail (by simpa using hinc)
    simp [waitLoop, hr]
  | cons x xs ih =>
    obtain ⟨m, rfl⟩ : ∃ m, n = m + 1 := ⟨n - 1, by omega⟩
    have hr := socket_recvline_line s x (xs.map Recv.line ++ tail) (by simpa using hinc)
    have hx : ¬ ((x.length : Int) + 1 < 0) := by omega
    simp only [waitLoop, hr, hx, if_false]
    rw [ih m (i + 1) _ _ rfl (by simp at hn; omega)]

theorem toInt32_range (v : Int) : -2147483648 ≤ toInt32 v ∧ toInt32 v ≤ 2147483647 := by
  unfold toInt32
  omega

theorem replyStatus_range (l0 : List Char) :
    -2147483648 ≤ replyStatus l0 ∧ replyStatus l0 ≤ 2147483647 :=
  toInt32_range _

theorem calloc_two : calloc 2 = some [none, none] := by
  decide

theorem calloc_count (K : Int) (h0 : 0 ≤ K) (h1 : K ≤ 2147483645) :
    calloc (toInt32 (K + 2)) = some (List.replicate (K + 2).toNat none) := by
  have h2 : toInt32 (K + 2) = K + 2 := by
    unfold toInt32
    omega
  have h3 : toSize (K + 2) = K + 2 := by
    unfold toSize
    omega
  have h4 : ¬ ((K + 2) * sizeof_ptr > SIZE_MAX) := by
    unfold sizeof_ptr SIZE_MAX
    omega
  unfold calloc
  rw [h2, h3, if_neg h4]

theorem calloc_wrapped (K : Int) (h0 : 2147483646 ≤ K) (h1 : K ≤ 2147483647) :
    calloc (toInt32 (K + 2)) = none := by
  have h4 : toSize (toInt32 (K + 2)) * sizeof_ptr > SIZE_MAX := by
    unfold toSize toInt32 sizeof_ptr SIZE_MAX
    omega
  unfold calloc
  rw [if_pos h4]

/-- A complete reply: the status line and its `max K 0` continuation lines
arrive, and the count `K + 2` of the array fits `int`; the array holds the
lines in order, then the null terminator. -/
theorem ra_wait_reply_ok (s : Sock) (l0 : List Char) (ls : List (List Char))
    (rest : List Recv) (hinc : s.inc = Recv.line l0 :: (ls.map Recv.line ++ rest))
    (hlen : (ls.length : Int) = max (replyStatus l0) 0)
    (hfit : replyStatus l0 ≤ 2147483645) :
    ra_wait_reply s =
      (.ok ((l0 :: ls).map some ++ [none]) (replyStatus l0), { s with inc := rest }) := by
  have hr := socket_recvline_line s l0 (ls.map Recv.line ++ rest) hinc
  have hx : ¬ ((l0.length : Int) + 1 < 0) := by omega
  have hrs : toInt32 (strtol (l0 ++ ['\n'])) = replyStatus l0 := rfl
  unfold ra_wait_reply
  simp only [hr, hx, if_false, take_line, hrs]
  by_cases hneg : replyStatus l0 < 0
  · have hls : ls = [] := by
      have : ls.length = 0 := by omega
      exact List.length_eq_zero.mp this
    subst hls
    have hpos : ¬ replyStatus l0 > 0 := by omega
    simp [hneg, hpos, calloc_two]
  · have hc := calloc_count (replyStatus l0) (by omega) hfit
    simp only [hneg, if_false, hc]
    by_cases hpos : replyStatus l0 > 0
    · have hK : (replyStatus l0).toNat = ls.length := by omega
      have hK2 : (replyStatus l0 + 2).toNat = ls.length + 1 + 1 := by omega
      simp only [hpos, if_true, hK, hK2]
      have hset : (List.replicate (ls.length + 1 + 1) (none : Option (List Char))).set 0
          (some l0) = [some l0] ++ List.replicate (ls.length + 1) none := by
        simp [List.replicate_succ]
      rw [hset, waitLoop_lines ls 0 { s with inc := ls.map Recv.line ++ rest } [some l0] rest
        rfl rfl]
      simp
    · have hls : ls = [] := by
        have : ls.length = 0 := by omega
        exact List.length_eq_zero.mp this
      subst hls
      have h0 : replyStatus l0 = 0 := by omega
      simp [h0, List.replicate_succ]

/-- A status whose array count `K + 2` does not fit `int`: the count wraps,
`calloc` fails, and the function returns `-1` with the status line read and
nothing after it. -/
theorem ra_wait_reply_wrapped (s : Sock) (l0 : List Char) (rest : List Recv)
    (hinc : s.inc = Recv.line l0 :: rest) (hbig : 2147483646 ≤ replyStatus l0) :
    ra_wait_reply s = (.err, { s with inc := rest }) := by
  have hr := socket_recvline_line s l0 rest hinc
  have hx : ¬ ((l0.length : Int) + 1 < 0) := by omega
  have hrs : toInt32 (strtol (l0 ++ ['\n'])) = replyStatus l0 := rfl
  have hneg : ¬ replyStatus l0 < 0 := by omega
  have hc := calloc_wrapped (replyStatus l0) hbig (replyStatus_range l0).2
  unfold ra_wait_reply
  simp only [hr, hx, if_false, hrs, hneg, hc]

/-- A reply that does not arrive in full: the status line is missing, or one of
the `K` continuation lines is; `tail` is what the failing read found. -/
theorem ra_wait_reply_fail (s : Sock) (tail : List Recv)
    (htail : tail = [] ∨ ∃ r, tail = Recv.fail :: r) :
    (s.inc = tail → ra_wait_reply s = (.err, { s with inc := tail.tail })) ∧
    (∀ (l0 : List Char) (ls : List (List Char)),
      s.inc = Recv.line l0 :: (ls.map Recv.line ++ tail) →
      (ls.length : Int) < replyStatus l0 → replyStatus l0 ≤ 2147483645 →
      ra_wait_reply s = (.err, { s with inc := tail.tail })) := by
  constructor
  · intro hinc
    have hr := socket_recvline_fail s tail htail hinc
    simp [ra_wait_reply, hr]
  · intro l0 ls hinc hlt hfit
    have hr := socket_recvline_line s l0 (ls.map Recv.line ++ tail) hinc
    have hx : ¬ ((l0.length : Int) + 1 < 0) := by omega
    have hrs : toInt32 (strtol (l0 ++ ['\n'])) = replyStatus l0 := rfl
    have hneg : ¬ replyStatus l0 < 0 := by omega
    have hc := calloc_count (replyStatus l0) (by omega) hfit
    unfold ra_wait_reply
    simp only [hr, hx, if_false, take_line, hrs, hneg, hc]
    have hpos : replyStatus l0 > 0 := by omega
    simp only [hpos, if_true]
    rw [waitLoop_fail ls _ 0 { s with inc := ls.map Recv.line ++ tail } _ tail rfl (by omega) htail]

/-! ## Request bytes -/

theorem fmt_register (e p : List Char) :
    vformat ("register %s %s".toList ++ ['\n']) [.str e, .str p] =
      "register ".toList ++ e ++ " ".toList ++ p ++ "\n".toList := by
  simp [vformat]

theorem fmt_login (e p : List Char) :
    vformat ("login %s %s".toList ++ ['\n']) [.str e, .str p] =
      "login ".toList ++ e ++ " ".toList ++ p ++ "\n".toList := by
  simp [vformat]

theorem fmt_logout : vformat ("logout".toList ++ ['\n']) [] = "logout\n".toList := by
  simp [vformat]

theorem fmt_follow (es : List Char) :
    vformat ("follow %s".toList ++ ['\n']) [.str es] = "follow ".toList ++ es ++ "\n".toList := by
  simp [vformat]

theorem fmt_followers : vformat ("followers".toList ++ ['\n']) [] = "followers\n".toList := by
  simp [vformat]

theorem fmt_cip (n : Nat) (b : List Char) :
    vformat ("cip \"%.*s\"".toList ++ ['\n']) [.int n, .str b] =
      "cip \"".toList ++ b.take n ++ "\"\n".toList := by
  simp [vformat]

theorem ra_send_sock (s : Sock) (fmt : List Char) (args : List Arg) :
    (ra_send s fmt args).2.sent = s.sent ++ [vformat (fmt ++ ['\n']) args] ∧
      (ra_send s fmt args).2.msg_buf = vformat (fmt ++ ['\n']) args ++ ['\x00'] := by
  simp [ra_send_eq]

theorem register_sock (s : Sock) (email password : List Char) :
    (robin_api_register s email password).2.sent =
        (ra_send s "register %s %s".toList [.str email, .str password]).2.sent ∧
      (robin_api_register s email password).2.msg_buf =
        (ra_send s "register %s %s".toList [.str email, .str password]).2.msg_buf := by
  have hw := ra_wait_reply_sock (ra_send s "register %s %s".toList [.str email, .str password]).2
  unfold robin_api_register
  generalize ra_send s "register %s %s".toList [.str email, .str password] = r at hw ⊢
  simp only
  split
  · exact ⟨rfl, rfl⟩
  · rcases hq : ra_wait_reply r.2 with ⟨w, s2⟩
    rw [hq] at hw
    cases w with
    | err => exact hw.2
    | ok a n =>
      simp only
      split <;> exact hw.2

theorem login_sock (s : Sock) (email password : List Char) :
    (robin_api_login s email password).2.sent =
        (ra_send s "login %s %s".toList [.str email, .str password]).2.sent ∧
      (robin_api_login s email password).2.msg_buf =
        (ra_send s "login %s %s".toList [.str email, .str password]).2.msg_buf := by
  have hw := ra_wait_reply_sock (ra_send s "login %s %s".toList [.str email, .str password]).2
  unfold robin_api_login
  generalize ra_send s "login %s %s".toList [.str email, .str password] = r at hw ⊢
  simp only
  split
  · exact ⟨rfl, rfl⟩
  · rcases hq : ra_wait_reply r.2 with ⟨w, s2⟩
    rw [hq] at hw
    cases w with
    | err => exact hw.2
    | ok a n =>
      simp only
      split <;> exact hw.2

theorem logout_sock (s : Sock) :
    (robin_api_logout s).2.sent = (ra_send s "logout".toList []).2.sent ∧
      (robin_api_logout s).2.msg_buf = (ra_send s "logout".toList []).2.msg_buf := by
  have hw := ra_wait_reply_sock (ra_send s "logout".toList []).2
  unfold robin_api_logout
  generalize ra_send s "logout".toList [] = r at hw ⊢
  simp only
  split
  · exact ⟨rfl, rfl⟩
  · rcases hq : ra_wait_reply r.2 with ⟨w, s2⟩
    rw [hq] at hw
    cases w with
    | err => exact hw.2
    | ok a n =>
      simp only
      split <;> exact hw.2

theorem follow_sock (s : Sock) (emails : List Char) :
    (robin_api_follow s emails).1.sent = (ra_send s "follow %s".toList [.str emails]).2.sent ∧
      (robin_api_follow s emails).1.msg_buf =
        (ra_send s "follow %s".toList [.str emails]).2.msg_buf := by
  have hw := ra_wait_reply_sock (ra_send s "follow %s".toList [.str emails]).2
  unfold robin_api_follow
  generalize ra_send s "follow %s".toList [.str emails] = r at hw ⊢
  simp only
  split
  · exact ⟨rfl, rfl⟩
  · rcases hq : ra_wait_reply r.2 with ⟨w, s2⟩
    rw [hq] at hw
    cases w with
    | err => exact hw.2
    | ok a n =>
      simp only
      split <;> exact hw.2

theorem followers_sock (s : Sock) :
    (robin_api_followers s).2.2.sent = (ra_send s "followers".toList []).2.sent ∧
      (robin_api_followers s).2.2.msg_buf = (ra_send s "followers".toList []).2.msg_buf := by
  have hw := ra_wait_reply_sock (ra_send s "followers".toList []).2
  unfold robin_api_followers
  generalize ra_send s "followers".toList [] = r at hw ⊢
  simp only
  split
  · exact ⟨rfl, rfl⟩
  · rcases hq : ra_wait_reply r.2 with ⟨w, s2⟩
    rw [hq] at hw
    cases w with
    | err => exact hw.2
    | ok a n =>
      simp only
      split <;> exact hw.2

/-! ## Claims on the request bytes and on reply framing -/

/-- C3: the bytes `robin_api_register` hands to `socket_sendn` are exactly
`register <email> <password>` followed by one newline, and likewise
`login <email> <password>`, `logout`, `follow <emails>` and `followers` for the
other commands: one more entry in the log of the socket, the formatted request
with its single trailing newline.  `msg_buf` holds the same bytes followed by
the terminating NUL, which is not sent. -/
theorem request_bytes_sent (s : Sock) (email password emails : List Char) :
    ((robin_api_register s email password).2.sent =
        s.sent ++ ["register ".toList ++ email ++ " ".toList ++ password ++ "\n".toList] ∧
      (robin_api_register s email password).2.msg_buf =
        "register ".toList ++ email ++ " ".toList ++ password ++ "\n".toList ++ ['\x00']) ∧
    ((robin_api_login s email password).2.sent =
        s.sent ++ ["login ".toList ++ email ++ " ".toList ++ password ++ "\n".toList] ∧
      (robin_api_login s email password).2.msg_buf =
        "login ".toList ++ email ++ " ".toList ++ password ++ "\n".toList ++ ['\x00']) ∧
    ((robin_api_logout s).2.sent = s.sent ++ ["logout\n".toList] ∧
      (robin_api_logout s).2.msg_buf = "logout\n".toList ++ ['\x00']) ∧
    ((robin_api_follow s emails).1.sent =
        s.sent ++ ["follow ".toList ++ emails ++ "\n".toList] ∧
      (robin_api_follow s emails).1.msg_buf =
        "follow ".toList ++ emails ++ "\n".toList ++ ['\x00']) ∧
    ((robin_api_followers s).2.2.sent = s.sent ++ ["followers\n".toList] ∧
      (robin_api_followers s).2.2.msg_buf = "followers\n".toList ++ ['\x00']) := by
  refine ⟨?_, ?_, ?_, ?_, ?_⟩
  · have h := register_sock s email password
    have h2 := ra_send_sock s "register %s %s".toList [.str email, .str password]
    rw [fmt_register] at h2
    exact ⟨h.1.trans h2.1, h.2.trans h2.2⟩
  · have h := login_sock s email password
    have h2 := ra_send_sock s "login %s %s".toList [.str email, .str password]
    rw [fmt_login] at h2
    exact ⟨h.1.trans h2.1, h.2.trans h2.2⟩
  · have h := logout_sock s
    have h2 := ra_send_sock s "logout".toList []
    rw [fmt_logout] at h2
    exact ⟨h.1.trans h2.1, h.2.trans h2.2⟩
  · have h := follow_sock s emails
    have h2 := ra_send_sock s "follow %s".toList [.str emails]
    rw [fmt_follow] at h2
    exact ⟨h.1.trans h2.1, h.2.trans h2.2⟩
  · have h := followers_sock s
    have h2 := ra_send_sock s "followers".toList []
    rw [fmt_followers] at h2
    exact ⟨h.1.trans h2.1, h.2.trans h2.2⟩

/-- C2 as stated fails: the status line `2147483647` parses to
`K = 2147483647`; with all `K` continuation lines following and no read
failing, `ra_wait_reply` returns `-1` having read the status line only, and the
same on the short stream status, `a`, `b`, where `a` and `b` stay unread: the
count `K + 2` given to `calloc` wraps in `int` and the allocation fails. -/
theorem ra_wait_reply_count_wraps :
    replyStatus "2147483647".toList = 2147483647 ∧
    ra_wait_reply
        { sendRes := [], sent := [], msg_buf := [],
          inc := Recv.line "2147483647".toList ::
            List.replicate 2147483647 (Recv.line "x".toList) } =
      (.err, { sendRes := [], sent := [], msg_buf := [],
               inc := List.replicate 2147483647 (Recv.line "x".toList) }) ∧
    ra_wait_reply
        { sendRes := [], sent := [], msg_buf := [],
          inc := [.line "2147483647".toList, .line "a".toList, .line "b".toList] } =
      (.err, { sendRes := [], sent := [], msg_buf := [],
               inc := [.line "a".toList, .line "b".toList] }) :=
  ⟨by decide,
    ra_wait_reply_wrapped _ "2147483647".toList _ rfl (by decide),
    ra_wait_reply_wrapped _ "2147483647".toList _ rfl (by decide)⟩

/-- C2 as amended: when the first line received parses to `K ≤ 2147483645`,
`ra_wait_reply` reads that line and `max K 0` continuation lines and no more:
with all of them received it returns `0`, sets `*nrep = K` and hands back the
lines in received order, without their terminators, followed by the null
terminator at index `max K 0 + 1`, and the rest of the stream is left unread.
When one of these reads fails (the status line, or one of the continuation
lines) it returns `-1`, having read nothing after the failed read.  When `K` is
`2147483646` or `2147483647` the count `K + 2` of the array does not fit `int`,
the allocation fails and it returns `-1` having read the status line only. -/
theorem ra_wait_reply_reads_reply (s : Sock) :
    (∀ (l0 : List Char) (ls : List (List Char)) (rest : List Recv),
      s.inc = Recv.line l0 :: (ls.map Recv.line ++ rest) →
      (ls.length : Int) = max (replyStatus l0) 0 → replyStatus l0 ≤ 2147483645 →
        ra_wait_reply s =
          (.ok ((l0 :: ls).map some ++ [none]) (replyStatus l0), { s with inc := rest }) ∧
        ((l0 :: ls).map some ++ [none]).get? ((max (replyStatus l0) 0).toNat + 1) = some none ∧
        (s.inc.drop (1 + (max (replyStatus l0) 0).toNat) = rest)) ∧
    (∀ (tail : List Recv), (tail = [] ∨ ∃ r, tail = Recv.fail :: r) →
      (s.inc = tail → ra_wait_reply s = (.err, { s with inc := tail.tail })) ∧
      (∀ (l0 : List Char) (ls : List (List Char)),
        s.inc = Recv.line l0 :: (ls.map Recv.line ++ tail) →
        (ls.length : Int) < replyStatus l0 → replyStatus l0 ≤ 2147483645 →
        ra_wait_reply s = (.err, { s with inc := tail.tail }))) ∧
    (∀ (l0 : List Char) (rest : List Recv),
      s.inc = Recv.line l0 :: rest → 2147483646 ≤ replyStatus l0 →
        ra_wait_reply s = (.err, { s with inc := rest })) := by
  refine ⟨?_, ?_, ?_⟩
  · intro l0 ls rest hinc hlen hfit
    refine ⟨ra_wait_reply_ok s l0 ls rest hinc hlen hfit, ?_, ?_⟩
    · have h1 : (max (replyStatus l0) 0).toNat = ls.length := by omega
      rw [h1]
      have h2 : ((l0 :: ls).map some).length = ls.length + 1 := by simp
      rw [List.get?_eq_getElem?, List.getElem?_append_right (by omega)]
      simp [h2]
    · have h1 : (max (replyStatus l0) 0).toNat = ls.length := by omega
      rw [h1, hinc]
      have h3 : 1 + ls.length = (Recv.line l0 :: ls.map Recv.line).length := by
        simp
        omega
      rw [← List.cons_append, h3, List.drop_left]
  · intro tail htail
    exact ra_wait_reply_fail s tail htail
  · intro l0 rest hinc hbig
    exact ra_wait_reply_wrapped s l0 rest hinc hbig

/-- Witness for the amended C2: the status line `2` followed by two lines and a
failed read; the failed read is left in the stream. -/
theorem ra_wait_reply_reads_reply_witness :
    ra_wait_reply
        { sendRes := [], sent := [], msg_buf := [],
          inc := [.line "2".toList, .line "a@x".toList, .line "b@x".toList, .fail] } =
      (.ok [some "2".toList, some "a@x".toList, some "b@x".toList, none] 2,
        { sendRes := [], sent := [], msg_buf := [], inc := [.fail] }) :=
  ((ra_wait_reply_reads_reply
      { sendRes := [], sent := [], msg_buf := [],
        inc := [.line "2".toList, .line "a@x".toList, .line "b@x".toList, .fail] }).1
    "2".toList ["a@x".toList, "b@x".toList] [.fail] rfl (by decide) (by decide)).1

/-! ## The encoding loop of `robin_api_cip` -/

theorem strchr_some (l : List Char) (c : Char) (k : Nat) (h : strchr l c = some k) :
    k < l.length ∧ (∀ x ∈ l.take k, x ≠ c) := by
  induction l generalizing k with
  | nil => simp [strchr] at h
  | cons x xs ih =>
    unfold strchr at h
    by_cases hx : x = c
    · simp [hx] at h
      subst h
      simp
    · simp only [hx, if_false, Option.map_eq_some'] at h
      obtain ⟨j, hj, rfl⟩ := h
      have := ih j hj
      refine ⟨by simp; omega, ?_⟩
      intro y hy
      simp only [List.take_succ_cons, List.mem_cons] at hy
      rcases hy with rfl | hy
      · exact hx
      · exact this.2 y hy

theorem strchr_none (l : List Char) (c : Char) (h : strchr l c = none) : c ∉ l := by
  induction l with
  | nil => simp
  | cons x xs ih =>
    unfold strchr at h
    by_cases hx : x = c
    · simp [hx] at h
    · simp only [hx, if_false, Option.map_eq_none'] at h
      simp only [List.mem_cons, not_or]
      exact ⟨fun h' => hx h'.symm, ih h⟩

theorem newlinesFollowBytes_strchr (l : List Char) (f : Bool) (k : Nat)
    (hs : newlinesFollowBytes f l = true) (h : strchr l '\n' = some k) :
    (f = true → 1 ≤ k) ∧ newlinesFollowBytes true (l.drop (k + 1)) = true := by
  induction l generalizing k f with
  | nil => simp [strchr] at h
  | cons x xs ih =>
    unfold strchr at h
    unfold newlinesFollowBytes at hs
    by_cases hx : x = '\n'
    · simp only [hx, if_true, Option.some.injEq] at h
      subst h
      simp only [hx, if_true, Bool.and_eq_true, Bool.not_eq_true'] at hs
      refine ⟨fun hf => by simp [hf] at hs, by simpa using hs.2⟩
    · simp only [hx, if_false, Option.map_eq_some'] at h
      obtain ⟨j, hj, rfl⟩ := h
      simp only [hx, if_false] at hs
      have := ih false j hs hj
      exact ⟨fun _ => by omega, by simpa using this.2⟩

theorem memcpy_fill (a src : List Char) (n m : Nat) (z : Char) (hn : n ≤ src.length) :
    memcpy (a ++ List.replicate (n + m) z) (a.length : Int) src (n : Int) =
      .ok (a ++ src.take n ++ List.replicate m z) := by
  unfold memcpy
  have hc : (0 : Int) ≤ (n : Int) ∧ (0 : Int) ≤ (a.length : Int) ∧
      (a.length : Int) + (n : Int) ≤ ((a ++ List.replicate (n + m) z).length : Nat) ∧
      (n : Int) ≤ (src.length : Nat) := by
    refine ⟨by omega, by omega, ?_, by omega⟩
    simp
  rw [if_pos hc]
  simp [List.drop_append, List.take_append_eq_append_take]

theorem realloc_grow (buf : List Char) (d : Nat) :
    realloc buf (buf.length + d) = buf ++ List.replicate d '\x00' := by
  simp [realloc]

theorem cipLoop_none (fuel : Nat) (last buf : List Char)
    (h : strchr last '\n' = none) :
    cipLoop (fuel + 1) last buf (buf.length : Int) =
      .ok (buf ++ last, ((buf ++ last).length : Nat)) := by
  rw [cipLoop]
  simp only [h]
  have h1 : ((buf.length : Int) + (last.length : Int)).toNat = buf.length + last.length := by omega
  rw [h1, realloc_grow]
  have h2 := memcpy_fill buf last last.length 0 '\x00' (le_refl _)
  simp only [Nat.add_zero] at h2
  rw [h2]
  simp [Except.bind]

theorem cipLoop_some (fuel : Nat) (last buf : List Char) (j : Nat)
    (h : strchr last '\n' = some (j + 1)) :
    cipLoop (fuel + 1) last buf (buf.length : Int) =
      cipLoop fuel (last.drop (j + 2)) (buf ++ last.take j ++ ['\\', 'n'])
        ((buf ++ last.take j ++ ['\\', 'n']).length : Nat) := by
  have hk := (strchr_some last '\n' (j + 1) h).1
  rw [cipLoop]
  simp only [h]
  have h1 : ((buf.length : Int) + (((j + 1 : Nat) : Int) + 1)).toNat = buf.length + (j + 2) := by
    omega
  have h3 : (((j + 1 : Nat) : Int) + 1 - 2) = (j : Int) := by omega
  rw [h1, realloc_grow, h3]
  have h2 := memcpy_fill buf last j 2 '\x00' (by omega)
  rw [h2]
  simp only [Except.bind]
  have h4 : (buf.length : Int) + (((j + 1 : Nat) : Int) + 1) - 2 =
      ((buf ++ last.take j).length : Nat) := by
    simp
    omega
  have h5 := memcpy_fill (buf ++ last.take j) ['\\', 'n'] 2 0 '\x00' (by simp)
  simp only [Nat.add_zero, Int.ofNat_eq_coe] at h5
  rw [h4]
  have h6 : ((2 : Nat) : Int) = 2 := rfl
  rw [h6] at h5
  rw [h5]
  simp only [List.replicate_zero, List.append_nil, List.take_succ_cons, List.take_zero]
  have h7 : (buf.length : Int) + (((j + 1 : Nat) : Int) + 1) =
      ((buf ++ last.take j ++ ['\\', 'n']).length : Nat) := by
    simp
    omega
  rw [h7]

theorem cipLoop_zero (fuel : Nat) (last buf : List Char)
    (h : strchr last '\n' = some 0) :
    cipLoop (fuel + 1) last buf (buf.length : Int) =
      .error (.badCopy (buf.length : Int) (-1) (buf.length + 1)) := by
  rw [cipLoop]
  simp only [h]
  have h1 : ((buf.length : Int) + (((0 : Nat) : Int) + 1)).toNat = buf.length + 1 := by omega
  rw [h1, realloc_grow]
  simp [memcpy, Except.bind]

theorem mem_take_pred (l : List Char) (j : Nat) (x : Char) (h : x ∈ l.take j) :
    x ∈ l.take (j + 1) := by
  have h1 : l.take j = (l.take (j + 1)).take j := by
    rw [List.take_take]
    simp
  rw [h1] at h
  exact List.mem_of_mem_take h

/-- The loop run on a message without empty segment ends with a result, and
keeps every property of the output buffer that appending a run of bytes of the
message other than newlines and appending the pair backslash, `n` keep. -/
theorem cipLoop_inv (P : List Char → Prop) (msg : List Char)
    (hseg : ∀ buf seg : List Char, P buf → (∀ c ∈ seg, c ∈ msg ∧ c ≠ '\n') → P (buf ++ seg))
    (hesc : ∀ buf : List Char, P buf → P (buf ++ ['\\', 'n'])) :
    ∀ (fuel : Nat) (last buf : List Char), last.length < fuel → (∀ c ∈ last, c ∈ msg) →
      newlinesFollowBytes true last = true → P buf →
      ∃ out : List Char, cipLoop fuel last buf (buf.length : Int) = .ok (out, (out.length : Nat)) ∧
        P out := by
  intro fuel
  induction fuel with
  | zero => intro last buf h; omega
  | succ fuel ih =>
    intro last buf hfuel hmem hsafe hP
    rcases h : strchr last '\n' with _ | k
    · refine ⟨buf ++ last, cipLoop_none fuel last buf h, hseg buf last hP ?_⟩
      intro c hc
      refine ⟨hmem c hc, ?_⟩
      rintro rfl
      exact strchr_none last _ h hc
    · have hk := newlinesFollowBytes_strchr last true k hsafe h
      obtain ⟨j, rfl⟩ : ∃ j, k = j + 1 := ⟨k - 1, by have := hk.1 rfl; omega⟩
      have hs := strchr_some last '\n' (j + 1) h
      rw [cipLoop_some fuel last buf j h]
      apply ih
      · simp only [List.length_drop]
        omega
      · intro c hc
        exact hmem c (List.mem_of_mem_drop hc)
      · exact hk.2
      · apply hesc
        apply hseg buf _ hP
        intro c hc
        exact ⟨hmem c (List.mem_of_mem_take hc), hs.2 c (mem_take_pred last j c hc)⟩

theorem cipEncode_ok (msg : List Char) (hsafe : noEmptySegment msg = true) :
    ∃ out : List Char, cipEncode msg = .ok (out, (out.length : Nat)) := by
  obtain ⟨out, h, _⟩ := cipLoop_inv (fun _ => True) msg (fun _ _ _ _ => trivial)
    (fun _ _ => trivial) (msg.length + 1) msg [] (by omega) (fun _ h => h) hsafe trivial
  exact ⟨out, h⟩

theorem newlinesFollowBytes_none (l : List Char) (f : Bool) (h : strchr l '\n' = none) :
    newlinesFollowBytes f l = true := by
  have hn := strchr_none l '\n' h
  induction l generalizing f with
  | nil => rfl
  | cons x xs ih =>
    simp only [List.mem_cons, not_or] at hn
    have hx : ¬ x = '\n' := fun h' => hn.1 h'.symm
    have hs : strchr xs '\n' = none := by
      unfold strchr at h
      simpa [hx] using h
    simp only [newlinesFollowBytes, hx, if_false]
    exact ih false hs hn.2

theorem newlinesFollowBytes_drop (l : List Char) (f : Bool) (j : Nat)
    (hs : newlinesFollowBytes f l = false) (h : strchr l '\n' = some (j + 1)) :
    newlinesFollowBytes true (l.drop (j + 2)) = false := by
  induction l generalizing j f with
  | nil => simp [strchr] at h
  | cons x xs ih =>
    unfold strchr at h
    unfold newlinesFollowBytes at hs
    by_cases hx : x = '\n'
    · simp [hx] at h
    · simp only [hx, if_false, Option.map_eq_some'] at h hs
      obtain ⟨k, hk, hkj⟩ := h
      have hkj : k = j := by omega
      subst hkj
      cases k with
      | zero =>
        cases xs with
        | nil => simp [strchr] at hk
        | cons y ys =>
          unfold strchr at hk
          by_cases hy : y = '\n'
          · unfold newlinesFollowBytes at hs
            simpa [hy] using hs
          · simp [hy] at hk
      | succ k => simpa using ih false k hs hk

/-- The loop run on a message with an empty segment (a newline at the start of
the message or directly after another newline) reaches a copy of length `-1`. -/
theorem cipLoop_fault (fuel : Nat) (last buf : List Char) (hfuel : last.length < fuel)
    (hbad : newlinesFollowBytes true last = false) :
    ∃ (off : Int) (cap : Nat),
      cipLoop fuel last buf (buf.length : Int) = .error (.badCopy off (-1) cap) := by
  induction fuel generalizing last buf with
  | zero => omega
  | succ fuel ih =>
    rcases h : strchr last '\n' with _ | k
    · rw [newlinesFollowBytes_none last true h] at hbad
      cases hbad
    · cases k with
      | zero => exact ⟨_, _, cipLoop_zero fuel last buf h⟩
      | succ j =>
        have hs := strchr_some last '\n' (j + 1) h
        rw [cipLoop_some fuel last buf j h]
        apply ih
        · simp only [List.length_drop]
          omega
        · exact newlinesFollowBytes_drop last true j hbad h

theorem cipEncode_fault (msg : List Char) (hbad : noEmptySegment msg = false) :
    ∃ (off : Int) (cap : Nat), cipEncode msg = .error (.badCopy off (-1) cap) :=
  cipLoop_fault (msg.length + 1) msg [] (by omega) hbad

theorem ra_send_ret (s : Sock) (fmt : List Char) (args : List Arg) :
    (ra_send s fmt args).1 = (if s.sendRes.head? = some true then 0 else -1) ∧
      (ra_send s fmt args).2.inc = s.inc := by
  simp [ra_send_eq]

theorem register_ret (s : Sock) (email password : List Char) :
    (robin_api_register s email password).1 =
      if (ra_send s "register %s %s".toList [.str email, .str password]).1 ≠ 0 then -1
      else replyResult
        (ra_wait_reply (ra_send s "register %s %s".toList [.str email, .str password]).2).1 := by
  unfold robin_api_register
  generalize ra_send s "register %s %s".toList [.str email, .str password] = r
  simp only
  split
  · rfl
  · rcases ra_wait_reply r.2 with ⟨w, s2⟩
    cases w with
    | err => rfl
    | ok a n =>
      simp only [replyResult]
      split <;> rfl

theorem login_ret (s : Sock) (email password : List Char) :
    (robin_api_login s email password).1 =
      if (ra_send s "login %s %s".toList [.str email, .str password]).1 ≠ 0 then -1
      else replyResult
        (ra_wait_reply (ra_send s "login %s %s".toList [.str email, .str password]).2).1 := by
  unfold robin_api_login
  generalize ra_send s "login %s %s".toList [.str email, .str password] = r
  simp only
  split
  · rfl
  · rcases ra_wait_reply r.2 with ⟨w, s2⟩
    cases w with
    | err => rfl
    | ok a n =>
      simp only [replyResult]
      split <;> rfl

theorem logout_ret (s : Sock) :
    (robin_api_logout s).1 =
      if (ra_send s "logout".toList []).1 ≠ 0 then -1
      else replyResult (ra_wait_reply (ra_send s "logout".toList []).2).1 := by
  unfold robin_api_logout
  generalize ra_send s "logout".toList [] = r
  simp only
  split
  · rfl
  · rcases ra_wait_reply r.2 with ⟨w, s2⟩
    cases w with
    | err => rfl
    | ok a n =>
      simp only [replyResult]
      split <;> rfl

theorem followers_ret (s : Sock) :
    (robin_api_followers s).1 =
      if (ra_send s "followers".toList []).1 ≠ 0 then -1
      else replyResult (ra_wait_reply (ra_send s "followers".toList []).2).1 := by
  unfold robin_api_followers
  generalize ra_send s "followers".toList [] = r
  simp only
  split
  · rfl
  · rcases ra_wait_reply r.2 with ⟨w, s2⟩
    cases w with
    | err => rfl
    | ok a n =>
      simp only [replyResult]
      split <;> rfl

theorem cip_ret (s : Sock) (msg out : List Char)
    (h : cipEncode msg = .ok (out, (out.length : Nat))) :
    ∃ sc : Sock,
      robin_api_cip s msg =
        .ok ((if (ra_send s "cip \"%.*s\"".toList [.int (out.length : Nat), .str out]).1 ≠ 0 then -1
          else replyResult (ra_wait_reply
            (ra_send s "cip \"%.*s\"".toList [.int (out.length : Nat), .str out]).2).1), sc) ∧
      sc.sent = s.sent ++ ["cip \"".toList ++ out ++ "\"\n".toList] := by
  have hs := ra_send_sock s "cip \"%.*s\"".toList [.int (out.length : Nat), .str out]
  have hw := ra_wait_reply_sock
    (ra_send s "cip \"%.*s\"".toList [.int (out.length : Nat), .str out]).2
  rw [fmt_cip, List.take_length] at hs
  unfold robin_api_cip
  rw [h]
  simp only [Except.bind]
  generalize ra_send s "cip \"%.*s\"".toList [.int (out.length : Nat), .str out] = r at hs hw ⊢
  split
  · exact ⟨_, rfl, hs.1⟩
  · rcases hq : ra_wait_reply r.2 with ⟨w, s2⟩
    rw [hq] at hw
    cases w with
    | err => exact ⟨_, rfl, hw.2.1.trans hs.1⟩
    | ok a n =>
      simp only [replyResult]
      split <;> exact ⟨_, rfl, hw.2.1.trans hs.1⟩

/-! ## Claims on `robin_api_cip` -/

theorem QuotedItems_append (a b : List Char) (ha : QuotedItems a) (hb : QuotedItems b) :
    QuotedItems (a ++ b) := by
  induction ha with
  | nil => simpa using hb
  | plain c rest h1 h2 _ ih => exact QuotedItems.plain c (rest ++ b) h1 h2 ih
  | escaped c rest _ ih => exact QuotedItems.escaped c (rest ++ b) ih

theorem QuotedItems_plain (l : List Char) (h : ∀ c ∈ l, c ≠ '"' ∧ c ≠ '\\') :
    QuotedItems l := by
  induction l with
  | nil => exact QuotedItems.nil
  | cons x xs ih =>
    have hx := h x (by simp)
    exact QuotedItems.plain x xs hx.1 hx.2 (ih fun c hc => h c (by simp [hc]))

/-- C1, the code at the failing input: for the message `hello`, newline,
`world` the request `robin_api_cip` sends is the line `cip "hell\nworld"`.  The
byte before the newline is lost, so the bytes differ from `cip "`, the encoding
of the message the specification describes, `"` and a newline. -/
theorem cip_loses_byte_before_newline (s : Sock) :
    ∃ r : Int × Sock, robin_api_cip s "hello\nworld".toList = .ok r ∧
      r.2.sent = s.sent ++ ["cip \"hell\\nworld\"\n".toList] ∧
      "cip \"hell\\nworld\"\n".toList ≠
        "cip \"".toList ++ specEnc "hello\nworld".toList ++ "\"\n".toList := by
  obtain ⟨sc, h1, h2⟩ := cip_ret s "hello\nworld".toList "hell\\nworld".toList (by rfl)
  exact ⟨_, h1, h2, by decide⟩

/-- C10, the code at the failing inputs: for a message that starts with a
newline the first copy of the encoding loop is `memcpy(msg_to_send + 0, last,
-1)` into the 1 byte allocated, and for a message with two newlines in a row
(`ab`, newline, newline, `cd`) the second iteration copies with length `-1` at
offset 3 of 4 bytes; the length `delta - 2` is negative although a newline was
found.  The empty message is encoded without any fault. -/
theorem cip_copy_of_negative_length (s : Sock) :
    robin_api_cip s "\n".toList = .error (.badCopy 0 (-1) 1) ∧
    robin_api_cip s "ab\n\ncd".toList = .error (.badCopy 3 (-1) 4) ∧
    ∃ r : Int × Sock, robin_api_cip s [] = .ok r ∧ r.2.sent = s.sent ++ ["cip \"\"\n".toList] := by
  refine ⟨by rfl, by rfl, ?_⟩
  obtain ⟨sc, h1, h2⟩ := cip_ret s [] [] (by rfl)
  exact ⟨_, h1, h2⟩

theorem not_IsCipRequest (body0 : List Char) (h : ¬ QuotedItems body0) :
    ¬ IsCipRequest ("cip \"".toList ++ body0 ++ "\"\n".toList) := by
  rintro ⟨body, hq, _, hb⟩
  rw [List.append_assoc, List.append_assoc] at hb
  have h1 := List.append_cancel_right (List.append_cancel_left hb)
  exact h (h1 ▸ hq)

/-- C9 as stated fails: for the message `a"b` the bytes sent are
`cip "a"b"` and a newline, where the quoted argument ends at the second double
quote, and for the message `a\` they are `cip "a\"` and a newline, where the
backslash takes the closing quote; neither is one request line of the wire
grammar. -/
theorem cip_quote_breaks_request_line :
    ¬ CipSendsRequestLine
        { sendRes := [true], sent := [], inc := [.line "0".toList], msg_buf := [] }
        "a\"b".toList ∧
      ¬ CipSendsRequestLine
        { sendRes := [true], sent := [], inc := [.line "0".toList], msg_buf := [] }
        "a\\".toList := by
  constructor
  · rintro ⟨r, bytes, h1, h2, h3⟩
    have he : robin_api_cip
        { sendRes := [true], sent := [], inc := [.line "0".toList], msg_buf := [] }
        "a\"b".toList =
        .ok (0, { sendRes := [], sent := ["cip \"".toList ++ ['a', '"', 'b'] ++ "\"\n".toList],
                  inc := [], msg_buf := "cip \"a\"b\"\n\x00".toList }) := by rfl
    rw [he] at h1
    injection h1 with h1
    subst h1
    simp only [List.nil_append, List.cons.injEq, and_true] at h2
    subst h2
    refine not_IsCipRequest _ ?_ h3
    intro hq
    cases hq with
    | plain _ _ _ _ h =>
      cases h with
      | plain _ _ h _ _ => exact h rfl
  · rintro ⟨r, bytes, h1, h2, h3⟩
    have he : robin_api_cip
        { sendRes := [true], sent := [], inc := [.line "0".toList], msg_buf := [] }
        "a\\".toList =
        .ok (0, { sendRes := [], sent := ["cip \"".toList ++ ['a', '\\'] ++ "\"\n".toList],
                  inc := [], msg_buf := "cip \"a\\\"\n\x00".toList }) := by rfl
    rw [he] at h1
    injection h1 with h1
    subst h1
    simp only [List.nil_append, List.cons.injEq, and_true] at h2
    subst h2
    refine not_IsCipRequest _ ?_ h3
    intro hq
    cases hq with
    | plain _ _ _ _ h =>
      cases h with
      | plain _ _ _ h _ => exact h rfl

/-- C9 as amended: for every message without double quote and without
backslash, that does not begin with a newline and has no two newlines in a
row, the bytes `robin_api_cip` sends form exactly one request line of the wire
grammar: `cip`, a space, one quoted argument, the terminating newline, and no
other newline. -/
theorem cip_sends_request_line (s : Sock) (msg : List Char)
    (hquote : '"' ∉ msg) (hbackslash : '\\' ∉ msg) (hseg : noEmptySegment msg = true) :
    CipSendsRequestLine s msg := by
  obtain ⟨out, h, hQ, hN⟩ := cipLoop_inv (fun b => QuotedItems b ∧ '\n' ∉ b) msg
    (fun buf seg hP hs => by
      refine ⟨QuotedItems_append buf seg hP.1 (QuotedItems_plain seg fun c hc => ?_), ?_⟩
      · have hm := (hs c hc).1
        exact ⟨fun h => hquote (h ▸ hm), fun h => hbackslash (h ▸ hm)⟩
      · intro hmem
        rcases List.mem_append.mp hmem with h1 | h1
        · exact hP.2 h1
        · exact (hs _ h1).2 rfl)
    (fun buf hP => by
      refine ⟨QuotedItems_append buf _ hP.1 (QuotedItems.escaped 'n' [] QuotedItems.nil), ?_⟩
      intro hmem
      rcases List.mem_append.mp hmem with h1 | h1
      · exact hP.2 h1
      · revert h1
        decide)
    (msg.length + 1) msg [] (by omega) (fun _ h => h) hseg
    ⟨QuotedItems.nil, by simp⟩
  obtain ⟨sc, h1, h2⟩ := cip_ret s msg out h
  exact ⟨_, _, h1, h2, out, hQ, hN, rfl⟩

/-- Witness for the amended C9: the message `hello`, newline, `world`. -/
theorem cip_sends_request_line_witness :
    CipSendsRequestLine
      { sendRes := [true], sent := [], inc := [.line "0".toList], msg_buf := [] }
      "hello\nworld".toList :=
  cip_sends_request_line _ _ (by decide) (by decide) (by decide)

/-! ## Decimal rendering against `strtol` -/

theorem digitChar_facts (d : Nat) (h : d < 10) :
    (Nat.digitChar d).isDigit = true ∧ (Nat.digitChar d).toNat - 48 = d ∧
      isspace (Nat.digitChar d) = false ∧ Nat.digitChar d ≠ '-' ∧ Nat.digitChar d ≠ '+' := by
  interval_cases d <;> decide

theorem toDigitsCore_acc (fuel n : Nat) (ds : List Char) :
    Nat.toDigitsCore 10 fuel n ds = Nat.toDigitsCore 10 fuel n [] ++ ds := by
  induction fuel generalizing n ds with
  | zero => simp [Nat.toDigitsCore]
  | succ fuel ih =>
    simp only [Nat.toDigitsCore]
    split
    · simp
    · rw [ih (n / 10) (Nat.digitChar (n % 10) :: ds), ih (n / 10) [Nat.digitChar (n % 10)]]
      simp

theorem digitsValue_snoc (l : List Char) (c : Char) :
    digitsValue (l ++ [c]) = digitsValue l * 10 + (c.toNat - 48) := by
  simp [digitsValue, List.foldl_append]

theorem toDigitsCore_value (fuel n : Nat) (h : n < fuel) :
    (∀ c ∈ Nat.toDigitsCore 10 fuel n [], c.isDigit = true) ∧
      digitsValue (Nat.toDigitsCore 10 fuel n []) = n ∧
      Nat.toDigitsCore 10 fuel n [] ≠ [] := by
  induction fuel generalizing n with
  | zero => omega
  | succ fuel ih =>
    have hd := digitChar_facts (n % 10) (Nat.mod_lt _ (by decide))
    simp only [Nat.toDigitsCore]
    split
    · rename_i h0
      refine ⟨by simpa using hd.1, ?_, by simp⟩
      have hn : n % 10 = n := by omega
      rw [hn] at hd ⊢
      simp [digitsValue, hd.2.1]
    · rename_i h0
      rw [toDigitsCore_acc]
      have := ih (n / 10) (by omega)
      refine ⟨?_, ?_, by simp⟩
      · intro c hc
        rcases List.mem_append.mp hc with h1 | h1
        · exact this.1 c h1
        · simp only [List.mem_singleton] at h1
          rw [h1]
          exact hd.1
      · rw [digitsValue_snoc, this.2.1, hd.2.1]
        omega

theorem toDigits_value (n : Nat) :
    (∀ c ∈ Nat.toDigits 10 n, c.isDigit = true) ∧ digitsValue (Nat.toDigits 10 n) = n ∧
      Nat.toDigits 10 n ≠ [] :=
  toDigitsCore_value (n + 1) n (by omega)

theorem isDigit_facts (c : Char) (h : c.isDigit = true) :
    isspace c = false ∧ c ≠ '-' ∧ c ≠ '+' := by
  refine ⟨?_, ?_, ?_⟩
  · simp only [Char.isDigit, Bool.and_eq_true, decide_eq_true_eq] at h
    simp only [isspace, Bool.or_eq_false_iff, decide_eq_false_iff_not]
    have h1 := h.1
    refine ⟨⟨⟨⟨⟨?_, ?_⟩, ?_⟩, ?_⟩, ?_⟩, ?_⟩ <;> (rintro rfl; revert h1; decide)
  · rintro rfl
    revert h
    decide
  · rintro rfl
    revert h
    decide

theorem strtol_digits (l : List Char) (h : ∀ c ∈ l, c.isDigit = true) (hne : l ≠ []) :
    strtol l = min (digitsValue l : Int) LONG_MAX := by
  obtain ⟨d, t, rfl⟩ := List.exists_cons_of_ne_nil hne
  have hd := isDigit_facts d (h d (by simp))
  have htw : (d :: t).takeWhile Char.isDigit = d :: t :=
    List.takeWhile_eq_self_iff.mpr h
  unfold strtol
  have hdw : (d :: t).dropWhile isspace = d :: t := by simp [List.dropWhile, hd.1]
  rw [hdw]
  dsimp only
  split
  · rename_i r heq
    exact absurd (List.cons.inj heq).1 hd.2.1
  · rename_i r heq
    exact absurd (List.cons.inj heq).1 hd.2.2
  · rw [htw]

theorem strtol_minus_digits (l : List Char) (h : ∀ c ∈ l, c.isDigit = true) :
    strtol ('-' :: l) = max (-(digitsValue l : Int)) LONG_MIN := by
  have htw : l.takeWhile Char.isDigit = l := List.takeWhile_eq_self_iff.mpr h
  unfold strtol
  have hdw : ('-' :: l).dropWhile isspace = '-' :: l := by
    simp [List.dropWhile, isspace]
  rw [hdw]
  simp only [htw]

/-- Reading back a rendered `int`: `strtol` and the conversion to `int` give
the number that was written. -/
theorem strtol_decimal (c : Int) (hlo : -2147483648 ≤ c) (hhi : c ≤ 2147483647) :
    toInt32 (strtol (decimal c)) = c := by
  cases c with
  | ofNat n =>
    have hv := toDigits_value n
    have hdec : decimal (Int.ofNat n) = Nat.toDigits 10 n := rfl
    rw [hdec, strtol_digits _ hv.1 hv.2.2, hv.2.1]
    simp only [Int.ofNat_eq_coe] at hhi
    unfold toInt32 LONG_MAX
    simp only [Int.ofNat_eq_coe]
    omega
  | negSucc n =>
    have hv := toDigits_value (n + 1)
    have hdec : decimal (Int.negSucc n) = '-' :: Nat.toDigits 10 (n + 1) := rfl
    rw [hdec, strtol_minus_digits _ hv.1, hv.2.1]
    unfold toInt32 LONG_MIN
    have hn : Int.negSucc n = -((n + 1 : Nat) : Int) := rfl
    rw [hn] at hlo ⊢
    omega

/-! ## Results of the request functions in terms of the reply -/

theorem ra_send_ok (s : Sock) (fmt : List Char) (args : List Arg) (sr : List Bool)
    (h : s.sendRes = true :: sr) : (ra_send s fmt args).1 = 0 := by
  simp [(ra_send_ret s fmt args).1, h]

theorem wait_status_neg (S : Sock) (l0 : List Char) (rest : List Recv)
    (hinc : S.inc = Recv.line l0 :: rest) (hneg : replyStatus l0 < 0) :
    (ra_wait_reply S).1 = .ok [some l0, none] (replyStatus l0) := by
  rw [ra_wait_reply_ok S l0 [] rest (by simpa using hinc) (by simp; omega) (by omega)]
  rfl

theorem wait_status_nonneg (S : Sock) (l0 : List Char) (ls : List (List Char))
    (rest : List Recv) (hinc : S.inc = Recv.line l0 :: (ls.map Recv.line ++ rest))
    (h0 : 0 ≤ replyStatus l0) (hlen : (ls.length : Int) = replyStatus l0)
    (hfit : replyStatus l0 ≤ 2147483645) :
    (ra_wait_reply S).1 = .ok ((l0 :: ls).map some ++ [none]) (replyStatus l0) := by
  rw [ra_wait_reply_ok S l0 ls rest hinc (by omega) hfit]

theorem wait_status_wrapped (S : Sock) (l0 : List Char) (rest : List Recv)
    (hinc : S.inc = Recv.line l0 :: rest) (hbig : 2147483646 ≤ replyStatus l0) :
    (ra_wait_reply S).1 = .err := by
  rw [ra_wait_reply_wrapped S l0 rest hinc hbig]

theorem wait_status_fail (S : Sock) (tail : List Recv)
    (htail : tail = [] ∨ ∃ r, tail = Recv.fail :: r)
    (h : S.inc = tail ∨ ∃ (l0 : List Char) (ls : List (List Char)),
      S.inc = Recv.line l0 :: (ls.map Recv.line ++ tail) ∧ (ls.length : Int) < replyStatus l0) :
    (ra_wait_reply S).1 = .err := by
  rcases h with h | ⟨l0, ls, h, hlt⟩
  · rw [(ra_wait_reply_fail S tail htail).1 h]
  · by_cases hfit : replyStatus l0 ≤ 2147483645
    · rw [(ra_wait_reply_fail S tail htail).2 l0 ls h hlt hfit]
    · exact wait_status_wrapped S l0 _ h (by omega)

theorem follow_ret_send (s : Sock) (emails : List Char)
    (h : (ra_send s "follow %s".toList [.str emails]).1 ≠ 0) :
    (robin_api_follow s emails).2 = .ok (-1, none) := by
  unfold robin_api_follow
  generalize ra_send s "follow %s".toList [.str emails] = r at h ⊢
  simp [h]

theorem follow_ret_err (s : Sock) (emails : List Char)
    (h : (ra_send s "follow %s".toList [.str emails]).1 = 0)
    (hw : (ra_wait_reply (ra_send s "follow %s".toList [.str emails]).2).1 = .err) :
    (robin_api_follow s emails).2 = .ok (-1, none) := by
  unfold robin_api_follow
  generalize ra_send s "follow %s".toList [.str emails] = r at h hw ⊢
  rcases hq : ra_wait_reply r.2 with ⟨w, s2⟩
  rw [hq] at hw
  simp only at hw
  subst hw
  simp [h, hq]

theorem follow_ret_neg (s : Sock) (emails : List Char) (a : List (Option (List Char))) (n : Int)
    (h : (ra_send s "follow %s".toList [.str emails]).1 = 0)
    (hw : (ra_wait_reply (ra_send s "follow %s".toList [.str emails]).2).1 = .ok a n)
    (hn : n < 0) :
    (robin_api_follow s emails).2 = .ok (n, none) := by
  unfold robin_api_follow
  generalize ra_send s "follow %s".toList [.str emails] = r at h hw ⊢
  rcases hq : ra_wait_reply r.2 with ⟨w, s2⟩
  rw [hq] at hw
  simp only at hw
  subst hw
  simp [h, hn, hq]

/-! ## Claims on `follow` and `followers` -/

theorem strchr_append (a b : List Char) (c : Char) (h : c ∉ a) :
    strchr (a ++ c :: b) c = some a.length := by
  induction a with
  | nil => simp [strchr]
  | cons x xs ih =>
    simp only [List.mem_cons, not_or] at h
    have hx : ¬ x = c := fun h' => h.1 h'.symm
    simp [strchr, hx, ih h.2]

theorem followLoop_lines (ps : List (List Char × Int)) (i : Nat)
    (pre : List (Option (List Char))) (done : List Int)
    (hform : ∀ p ∈ ps, ' ' ∉ p.1 ∧ -2147483648 ≤ p.2 ∧ p.2 ≤ 2147483647)
    (hpre : pre.length = i + 1) (hdone : done.length = i) :
    followLoop ps.length i (pre ++ (ps.map fun p => some (followLine p)) ++ [none])
        (done ++ List.replicate ps.length 0) =
      .ok (pre ++ (ps.map fun p => some p.1) ++ [none], done ++ ps.map (·.2)) := by
  induction ps generalizing i pre done with
  | nil => simp [followLoop]
  | cons p ps ih =>
    have hp := hform p (by simp)
    have hget : (pre ++ ((p :: ps).map fun p => some (followLine p)) ++ [none]).get? (i + 1) =
        some (some (followLine p)) := by
      rw [List.get?_eq_getElem?, List.append_assoc, List.getElem?_append_right (by omega)]
      simp [hpre]
    have hchr : strchr (followLine p) ' ' = some p.1.length := strchr_append p.1 _ ' ' hp.1
    have htake : (followLine p).take p.1.length = p.1 := by simp [followLine]
    have hdrop : (followLine p).drop (p.1.length + 1) = decimal p.2 := by
      simp [followLine, List.drop_append]
    have hset1 : (pre ++ ((p :: ps).map fun p => some (followLine p)) ++ [none]).set (i + 1)
        (some p.1) = (pre ++ [some p.1]) ++ (ps.map fun p => some (followLine p)) ++ [none] := by
      rw [List.append_assoc, List.set_append_right _ _ (by omega)]
      simp [hpre]
    have hset2 : (done ++ List.replicate (p :: ps).length 0).set i p.2 =
        (done ++ [p.2]) ++ List.replicate ps.length 0 := by
      rw [List.set_append_right _ _ (by omega)]
      simp [hdone, List.replicate_succ]
    rw [List.length_cons, followLoop]
    simp only [hget, hchr, htake, hdrop, strtol_decimal p.2 hp.2.1 hp.2.2]
    rw [List.length_cons] at hset2
    rw [hset1, hset2, ih (i + 1) (pre ++ [some p.1]) (done ++ [p.2])
      (fun q hq => hform q (by simp [hq])) (by simp [hpre]) (by simp [hdone])]
    simp

/-- C4 as stated fails: for the reply status `1`, line `a@x 4294967295` the
code of the line is `4294967295` but `reply->data[0]` is `-1`, the value
`strtol` yields converted to `int`; and for the status `2147483647` followed by
as many lines `a@x 0` the reply array cannot be allocated and
`robin_api_follow` returns `-1` without filling in the reply. -/
theorem follow_code_or_count_out_of_int :
    (robin_api_follow
        { sendRes := [true], sent := [], msg_buf := [],
          inc := [.line "1".toList, .line (followLine ("a@x".toList, 4294967295))] }
        "a@x".toList).2 =
      .ok (1, some { n := 1, data := .ints [-1], free_ptr := .results }) ∧
    (robin_api_follow
        { sendRes := [true], sent := [], msg_buf := [],
          inc := Recv.line "2147483647".toList ::
            List.replicate 2147483647 (Recv.line (followLine ("a@x".toList, 0))) }
        "a@x".toList).2 = .ok (-1, none) := by
  refine ⟨by rfl, ?_⟩
  apply follow_ret_err
  · exact ra_send_ok _ _ _ [] rfl
  · exact wait_status_wrapped _ "2147483647".toList
      (List.replicate 2147483647 (Recv.line (followLine ("a@x".toList, 0))))
      ((ra_send_ret _ _ _).2.trans rfl) (by decide)

/-- C4 as amended: for a reply made of a status line that parses to `K` with
`1 ≤ K ≤ 2147483645`, followed by `K` lines, each an email without space, one
space and a result code written in decimal that fits `int`, `robin_api_follow`
returns `K`, sets `reply->n = K`, and `reply->data` holds the codes of the
lines in the order the lines were received. -/
theorem follow_results_in_order (s : Sock) (emails l0 : List Char)
    (ps : List (List Char × Int)) (rest : List Recv) (sr : List Bool)
    (hsend : s.sendRes = true :: sr)
    (hinc : s.inc = Recv.line l0 :: ((ps.map followLine).map Recv.line ++ rest))
    (hK : replyStatus l0 = (ps.length : Int)) (hpos : 1 ≤ ps.length)
    (hfit : ps.length ≤ 2147483645)
    (hform : ∀ p ∈ ps, ' ' ∉ p.1 ∧ -2147483648 ≤ p.2 ∧ p.2 ≤ 2147483647) :
    (robin_api_follow s emails).2 =
        .ok ((ps.length : Int),
          some { n := (ps.length : Int), data := .ints (ps.map (·.2)),
                 free_ptr := .results }) ∧
      (robin_api_follow s emails).1.inc = rest ∧
      ∀ (i : Nat) (h : i < ps.length), (ps.map (·.2)).get? i = some (ps.get ⟨i, h⟩).2 := by
  have hw := ra_wait_reply_ok
    (ra_send s "follow %s".toList [.str emails]).2 l0 (ps.map followLine) rest
    ((ra_send_ret s _ _).2.trans hinc) (by simp [hK]) (by omega)
  have hret : (ra_send s "follow %s".toList [.str emails]).1 = 0 := by
    simp [(ra_send_ret s _ _).1, hsend]
  have hloop := followLoop_lines ps 0 [some l0] [] hform rfl rfl
  refine ⟨?_, ?_, ?_⟩
  · unfold robin_api_follow
    simp only [hret, hw, hK]
    simp only [ne_eq, not_true_eq_false, if_false, Int.toNat_ofNat]
    have hneg : ¬ ((ps.length : Int) < 0) := by omega
    simp only [hneg, if_false]
    simp only [List.map_map, List.nil_append, List.map_cons] at hloop ⊢
    have hfun : (some ∘ followLine) = fun p : List Char × Int => some (followLine p) := rfl
    rw [hfun, List.singleton_append] at *
    rw [hloop]
    rfl
  · unfold robin_api_follow
    simp only [hret, hw, hK]
    simp only [ne_eq, not_true_eq_false, if_false]
    have hneg : ¬ ((ps.length : Int) < 0) := by omega
    simp only [hneg, if_false]
  · intro i h
    simp [List.getElem?_eq_getElem h]

/-- Witness for the amended C4: the reply of the specification's scenario 3. -/
theorem follow_results_in_order_witness :
    (robin_api_follow
        { sendRes := [true], sent := [], msg_buf := [],
          inc := [.line "3".toList, .line "a@x -2".toList, .line "c@x -1".toList,
                  .line "b@x 0".toList] }
        "a@x c@x b@x".toList).2 =
      .ok (3, some { n := 3, data := .ints [-2, -1, 0], free_ptr := .results }) :=
  (follow_results_in_order
    { sendRes := [true], sent := [], msg_buf := [],
      inc := [.line "3".toList, .line "a@x -2".toList, .line "c@x -1".toList,
              .line "b@x 0".toList] }
    "a@x c@x b@x".toList "3".toList
    [("a@x".toList, -2), ("c@x".toList, -1), ("b@x".toList, 0)] [] [] rfl (by rfl) (by decide)
    (by decide) (by decide) (by decide)).1

/-- C5 as stated fails: for the status `2147483647` followed by as many lines
`a@x` the reply array cannot be allocated (its count wraps in `int`), and
`robin_api_followers` returns `-1` without filling in the reply, where the
claim says it returns `0` with `reply->n = 2147483647`. -/
theorem followers_count_wraps :
    (robin_api_followers
        { sendRes := [true], sent := [], msg_buf := [],
          inc := Recv.line "2147483647".toList ::
            List.replicate 2147483647 (Recv.line "a@x".toList) }).1 = -1 ∧
    (robin_api_followers
        { sendRes := [true], sent := [], msg_buf := [],
          inc := Recv.line "2147483647".toList ::
            List.replicate 2147483647 (Recv.line "a@x".toList) }).2.1 = none := by
  have hret := ra_send_ok
    { sendRes := [true], sent := [], msg_buf := [],
      inc := Recv.line "2147483647".toList ::
        List.replicate 2147483647 (Recv.line "a@x".toList) }
    "followers".toList [] [] rfl
  have hw := ra_wait_reply_wrapped
    (ra_send
      { sendRes := [true], sent := [], msg_buf := [],
        inc := Recv.line "2147483647".toList ::
          List.replicate 2147483647 (Recv.line "a@x".toList) }
      "followers".toList []).2
    "2147483647".toList (List.replicate 2147483647 (Recv.line "a@x".toList))
    ((ra_send_ret _ _ _).2.trans rfl) (by decide)
  constructor
  · unfold robin_api_followers
    generalize ra_send _ "followers".toList [] = r at hw hret ⊢
    simp only [hret, hw, ne_eq, not_true_eq_false, if_false]
  · unfold robin_api_followers
    generalize ra_send _ "followers".toList [] = r at hw hret ⊢
    simp only [hret, hw, ne_eq, not_true_eq_false, if_false]

/-- C5 as amended: for a reply made of a status line that parses to `K` with
`0 ≤ K ≤ 2147483645`, followed by `K` lines, `robin_api_followers` returns `0`,
sets `reply->n = K`, and `reply->data[i]` is the `(i+1)`-th reply line without
its terminator for every `i < K`: the lines in the order they were received. -/
theorem followers_lines_in_order (s : Sock) (l0 : List Char) (ls : List (List Char))
    (rest : List Recv) (sr : List Bool)
    (hsend : s.sendRes = true :: sr)
    (hinc : s.inc = Recv.line l0 :: (ls.map Recv.line ++ rest))
    (hK : replyStatus l0 = (ls.length : Int)) (hfit : ls.length ≤ 2147483645) :
    (robin_api_followers s).1 = 0 ∧
      (robin_api_followers s).2.1 =
        some { n := (ls.length : Int), data := .lines (ls.map some ++ [none]),
               free_ptr := .replies } ∧
      (robin_api_followers s).2.2.inc = rest ∧
      ∀ (i : Nat) (h : i < ls.length),
        (ls.map some ++ [none]).get? i = some (some (ls.get ⟨i, h⟩)) := by
  have hw := ra_wait_reply_ok (ra_send s "followers".toList []).2 l0 ls rest
    ((ra_send_ret s _ _).2.trans hinc) (by simp [hK]) (by omega)
  have hret : (ra_send s "followers".toList []).1 = 0 := ra_send_ok s _ _ sr hsend
  have hneg : ¬ ((ls.length : Int) < 0) := by omega
  refine ⟨?_, ?_, ?_, ?_⟩
  · unfold robin_api_followers
    generalize ra_send s "followers".toList [] = r at hw hret ⊢
    simp [hret, hw, hK, hneg]
  · unfold robin_api_followers
    generalize ra_send s "followers".toList [] = r at hw hret ⊢
    simp [hret, hw, hK, hneg]
  · unfold robin_api_followers
    generalize ra_send s "followers".toList [] = r at hw hret ⊢
    simp [hret, hw, hK, hneg]
  · intro i h
    rw [List.get?_eq_getElem?, List.getElem?_append_left (by simpa using h)]
    simp [List.getElem?_eq_getElem h]

/-- Witness for the amended C5: the reply of the specification's scenario 2. -/
theorem followers_lines_in_order_witness :
    (robin_api_followers
        { sendRes := [true], sent := [], msg_buf := [],
          inc := [.line "1".toList, .line "a@x".toList] }).2.1 =
      some { n := 1, data := .lines [some "a@x".toList, none], free_ptr := .replies } :=
  (followers_lines_in_order
    { sendRes := [true], sent := [], msg_buf := [],
      inc := [.line "1".toList, .line "a@x".toList] }
    "1".toList ["a@x".toList] [] [] rfl rfl (by decide) (by decide)).2.1

/-! ## Claim on the results of the request functions -/

/-- C6 as stated fails: with the status `-2` waiting on the socket,
`robin_api_cip` called on the message made of one newline stops in its encoding
loop (a copy of length `-1`) and returns no result, neither `-2` nor `-1`; and
for the status `2147483647` followed by as many lines `robin_api_register`
returns `-1`, not `0`, as the reply array cannot be allocated. -/
theorem api_result_not_status :
    robin_api_cip
        { sendRes := [true], sent := [], msg_buf := [], inc := [.line "-2".toList] }
        "\n".toList = .error (.badCopy 0 (-1) 1) ∧
    (∀ (rc : Int) (sc : Sock), robin_api_cip
        { sendRes := [true], sent := [], msg_buf := [], inc := [.line "-2".toList] }
        "\n".toList ≠ .ok (rc, sc)) ∧
    (robin_api_register
        { sendRes := [true], sent := [], msg_buf := [],
          inc := Recv.line "2147483647".toList ::
            List.replicate 2147483647 (Recv.line "x".toList) }
        "a@x".toList "pw".toList).1 = -1 := by
  have hcip : robin_api_cip
      { sendRes := [true], sent := [], msg_buf := [], inc := [.line "-2".toList] }
      "\n".toList = .error (.badCopy 0 (-1) 1) := by rfl
  refine ⟨hcip, ?_, ?_⟩
  · intro rc sc h
    rw [hcip] at h
    cases h
  · rw [register_ret, ra_send_ok _ _ _ [] rfl,
      wait_status_wrapped _ "2147483647".toList
        (List.replicate 2147483647 (Recv.line "x".toList))
        ((ra_send_ret _ _ _).2.trans rfl) (by decide)]
    rfl

/-- C6 as amended: the result of the request functions.  With the request sent
and the reply received, a status `s < 0` is returned unchanged by
`robin_api_register`, `robin_api_login`, `robin_api_logout`, `robin_api_follow`
and `robin_api_followers`, and with a status `0 ≤ s ≤ 2147483645` and its `s`
lines received the first three and `robin_api_followers` return `0`.  Each of
them returns `-1` when `socket_sendn` fails, when a read of the reply fails
(the status line, or one of the lines the status announces), and when the
status is `2147483646` or `2147483647` (the reply array cannot be allocated).
`robin_api_cip` does the same on every message that does not begin with a
newline and has no two newlines in a row. -/
theorem api_result_codes (s : Sock) (email password emails msg : List Char) :
    (∀ (l0 : List Char) (rest : List Recv) (sr : List Bool),
      s.sendRes = true :: sr → s.inc = Recv.line l0 :: rest → replyStatus l0 < 0 →
        (robin_api_register s email password).1 = replyStatus l0 ∧
        (robin_api_login s email password).1 = replyStatus l0 ∧
        (robin_api_logout s).1 = replyStatus l0 ∧
        (noEmptySegment msg = true →
          ∃ sc : Sock, robin_api_cip s msg = .ok (replyStatus l0, sc)) ∧
        (robin_api_follow s emails).2 = .ok (replyStatus l0, none) ∧
        (robin_api_followers s).1 = replyStatus l0) ∧
    (∀ (l0 : List Char) (ls : List (List Char)) (rest : List Recv) (sr : List Bool),
      s.sendRes = true :: sr → s.inc = Recv.line l0 :: (ls.map Recv.line ++ rest) →
      0 ≤ replyStatus l0 → replyStatus l0 ≤ 2147483645 →
      (ls.length : Int) = replyStatus l0 →
        (robin_api_register s email password).1 = 0 ∧
        (robin_api_login s email password).1 = 0 ∧
        (robin_api_logout s).1 = 0 ∧
        (noEmptySegment msg = true → ∃ sc : Sock, robin_api_cip s msg = .ok (0, sc)) ∧
        (robin_api_followers s).1 = 0) ∧
    (s.sendRes.head? ≠ some true →
        (robin_api_register s email password).1 = -1 ∧
        (robin_api_login s email password).1 = -1 ∧
        (robin_api_logout s).1 = -1 ∧
        (noEmptySegment msg = true → ∃ sc : Sock, robin_api_cip s msg = .ok (-1, sc)) ∧
        (robin_api_follow s emails).2 = .ok (-1, none) ∧
        (robin_api_followers s).1 = -1) ∧
    (∀ (tail : List Recv) (sr : List Bool),
      s.sendRes = true :: sr → (tail = [] ∨ ∃ r, tail = Recv.fail :: r) →
      (s.inc = tail ∨ ∃ (l0 : List Char) (ls : List (List Char)),
        s.inc = Recv.line l0 :: (ls.map Recv.line ++ tail) ∧
          (ls.length : Int) < replyStatus l0) →
        (robin_api_register s email password).1 = -1 ∧
        (robin_api_login s email password).1 = -1 ∧
        (robin_api_logout s).1 = -1 ∧
        (noEmptySegment msg = true → ∃ sc : Sock, robin_api_cip s msg = .ok (-1, sc)) ∧
        (robin_api_follow s emails).2 = .ok (-1, none) ∧
        (robin_api_followers s).1 = -1) ∧
    (∀ (l0 : List Char) (rest : List Recv) (sr : List Bool),
      s.sendRes = true :: sr → s.inc = Recv.line l0 :: rest → 2147483646 ≤ replyStatus l0 →
        (robin_api_register s email password).1 = -1 ∧
        (robin_api_login s email password).1 = -1 ∧
        (robin_api_logout s).1 = -1 ∧
        (noEmptySegment msg = true → ∃ sc : Sock, robin_api_cip s msg = .ok (-1, sc)) ∧
        (robin_api_follow s emails).2 = .ok (-1, none) ∧
        (robin_api_followers s).1 = -1) := by
  have hcipAll : noEmptySegment msg = true → ∃ (out : List Char) (sc : Sock),
      robin_api_cip s msg =
        .ok ((if (ra_send s "cip \"%.*s\"".toList [.int (out.length : Nat), .str out]).1 ≠ 0
          then -1
          else replyResult (ra_wait_reply
            (ra_send s "cip \"%.*s\"".toList [.int (out.length : Nat), .str out]).2).1), sc) := by
    intro hmsg
    obtain ⟨out, henc⟩ := cipEncode_ok msg hmsg
    obtain ⟨sc, hcip, _⟩ := cip_ret s msg out henc
    exact ⟨out, sc, hcip⟩
  have hreg := register_ret s email password
  have hlogin := login_ret s email password
  have hlogout := logout_ret s
  have hfollowers := followers_ret s
  have hsr : ∀ (fmt : List Char) (args : List Arg) (sr : List Bool), s.sendRes = true :: sr →
      (ra_send s fmt args).1 = 0 := fun fmt args sr h => ra_send_ok s fmt args sr h
  have hsf : ∀ (fmt : List Char) (args : List Arg), s.sendRes.head? ≠ some true →
      (ra_send s fmt args).1 ≠ 0 := by
    intro fmt args h
    simp [(ra_send_ret s fmt args).1, h]
  have hinc : ∀ (fmt : List Char) (args : List Arg), (ra_send s fmt args).2.inc = s.inc :=
    fun fmt args => (ra_send_ret s fmt args).2
  refine ⟨?_, ?_, ?_, ?_, ?_⟩
  · intro l0 rest sr hsend hs hneg
    have hw : ∀ (fmt : List Char) (args : List Arg),
        (ra_wait_reply (ra_send s fmt args).2).1 = .ok [some l0, none] (replyStatus l0) :=
      fun fmt args => wait_status_neg _ l0 rest ((hinc fmt args).trans hs) hneg
    refine ⟨?_, ?_, ?_, ?_, ?_, ?_⟩
    · rw [hreg, hw, hsr _ _ sr hsend]
      simp [replyResult, hneg]
    · rw [hlogin, hw, hsr _ _ sr hsend]
      simp [replyResult, hneg]
    · rw [hlogout, hw, hsr _ _ sr hsend]
      simp [replyResult, hneg]
    · intro hmsg
      obtain ⟨out, sc, hcip⟩ := hcipAll hmsg
      refine ⟨sc, ?_⟩
      rw [hcip, hw, hsr _ _ sr hsend]
      simp [replyResult, hneg]
    · exact follow_ret_neg s emails _ _ (hsr _ _ sr hsend) (hw _ _) hneg
    · rw [hfollowers, hw, hsr _ _ sr hsend]
      simp [replyResult, hneg]
  · intro l0 ls rest sr hsend hs h0 hfit hlen
    have hw : ∀ (fmt : List Char) (args : List Arg),
        (ra_wait_reply (ra_send s fmt args).2).1 =
          .ok ((l0 :: ls).map some ++ [none]) (replyStatus l0) :=
      fun fmt args => wait_status_nonneg _ l0 ls rest ((hinc fmt args).trans hs) h0 hlen hfit
    have hnn : ¬ replyStatus l0 < 0 := by omega
    refine ⟨?_, ?_, ?_, ?_, ?_⟩
    · rw [hreg, hw, hsr _ _ sr hsend]
      simp [replyResult, hnn]
    · rw [hlogin, hw, hsr _ _ sr hsend]
      simp [replyResult, hnn]
    · rw [hlogout, hw, hsr _ _ sr hsend]
      simp [replyResult, hnn]
    · intro hmsg
      obtain ⟨out, sc, hcip⟩ := hcipAll hmsg
      refine ⟨sc, ?_⟩
      rw [hcip, hw, hsr _ _ sr hsend]
      simp [replyResult, hnn]
    · rw [hfollowers, hw, hsr _ _ sr hsend]
      simp [replyResult, hnn]
  · intro hsend
    refine ⟨?_, ?_, ?_, ?_, ?_, ?_⟩
    · rw [hreg, if_pos (hsf _ _ hsend)]
    · rw [hlogin, if_pos (hsf _ _ hsend)]
    · rw [hlogout, if_pos (hsf _ _ hsend)]
    · intro hmsg
      obtain ⟨out, sc, hcip⟩ := hcipAll hmsg
      refine ⟨sc, ?_⟩
      rw [hcip, if_pos (hsf _ _ hsend)]
    · exact follow_ret_send s emails (hsf _ _ hsend)
    · rw [hfollowers, if_pos (hsf _ _ hsend)]
  · intro tail sr hsend htail hs
    have hw : ∀ (fmt : List Char) (args : List Arg),
        (ra_wait_reply (ra_send s fmt args).2).1 = .err := by
      intro fmt args
      apply wait_status_fail _ tail htail
      rw [hinc fmt args]
      exact hs
    refine ⟨?_, ?_, ?_, ?_, ?_, ?_⟩
    · rw [hreg, hw, hsr _ _ sr hsend]
      simp [replyResult]
    · rw [hlogin, hw, hsr _ _ sr hsend]
      simp [replyResult]
    · rw [hlogout, hw, hsr _ _ sr hsend]
      simp [replyResult]
    · intro hmsg
      obtain ⟨out, sc, hcip⟩ := hcipAll hmsg
      refine ⟨sc, ?_⟩
      rw [hcip, hw, hsr _ _ sr hsend]
      simp [replyResult]
    · exact follow_ret_err s emails (hsr _ _ sr hsend) (hw _ _)
    · rw [hfollowers, hw, hsr _ _ sr hsend]
      simp [replyResult]
  · intro l0 rest sr hsend hs hbig
    have hw : ∀ (fmt : List Char) (args : List Arg),
        (ra_wait_reply (ra_send s fmt args).2).1 = .err :=
      fun fmt args => wait_status_wrapped _ l0 rest ((hinc fmt args).trans hs) hbig
    refine ⟨?_, ?_, ?_, ?_, ?_, ?_⟩
    · rw [hreg, hw, hsr _ _ sr hsend]
      simp [replyResult]
    · rw [hlogin, hw, hsr _ _ sr hsend]
      simp [replyResult]
    · rw [hlogout, hw, hsr _ _ sr hsend]
      simp [replyResult]
    · intro hmsg
      obtain ⟨out, sc, hcip⟩ := hcipAll hmsg
      refine ⟨sc, ?_⟩
      rw [hcip, hw, hsr _ _ sr hsend]
      simp [replyResult]
    · exact follow_ret_err s emails (hsr _ _ sr hsend) (hw _ _)
    · rw [hfollowers, hw, hsr _ _ sr hsend]
      simp [replyResult]

/-- Witness for the amended C6: the server answers `-2` (not authenticated) to
each request; the message given to `robin_api_cip` has a newline in it. -/
theorem api_result_codes_witness :
    (robin_api_register
        { sendRes := [true], sent := [], msg_buf := [], inc := [.line "-2".toList] }
        "a@x".toList "pw".toList).1 = -2 ∧
      (∃ sc : Sock, robin_api_cip
        { sendRes := [true], sent := [], msg_buf := [], inc := [.line "-2".toList] }
        "hello\nworld".toList = .ok (-2, sc)) ∧
      (robin_api_follow
        { sendRes := [true], sent := [], msg_buf := [], inc := [.line "-2".toList] }
        "b@x".toList).2 = .ok (-2, none) :=
  have h := (api_result_codes
    { sendRes := [true], sent := [], msg_buf := [], inc := [.line "-2".toList] }
    "a@x".toList "pw".toList "b@x".toList "hello\nworld".toList).1
    "-2".toList [] [] rfl rfl (by decide)
  ⟨h.1, h.2.2.2.1 (by decide), h.2.2.2.2.1⟩

/-! ## Claims on `main` -/

theorem serverLoop_interrupted (fd : Int) (pre post : List Accept)
    (hpre : ∀ a ∈ pre, a ≠ Accept.fail EINTR SIGINT) :
    serverLoop fd (pre ++ Accept.fail EINTR SIGINT :: post) =
      (pre.flatMap (acceptCalls fd) ++ [Event.accept fd], true) := by
  induction pre with
  | nil => simp [serverLoop]
  | cons a pre ih =>
    have ih := ih fun x hx => hpre x (by simp [hx])
    cases a with
    | ok cfd => simp [serverLoop, ih, acceptCalls]
    | fail e sg =>
      have hne : ¬ (e = EINTR ∧ sg = SIGINT) := by
        rintro ⟨rfl, rfl⟩
        exact hpre _ (by simp) rfl
      simp [serverLoop, ih, acceptCalls, hne]

theorem serverLoop_running (fd : Int) (l : List Accept)
    (hl : ∀ a ∈ l, a ≠ Accept.fail EINTR SIGINT) :
    serverLoop fd l = (l.flatMap (acceptCalls fd), false) := by
  induction l with
  | nil => simp [serverLoop]
  | cons a l ih =>
    have ih := ih fun x hx => hl x (by simp [hx])
    cases a with
    | ok cfd => simp [serverLoop, ih, acceptCalls]
    | fail e sg =>
      have hne : ¬ (e = EINTR ∧ sg = SIGINT) := by
        rintro ⟨rfl, rfl⟩
        exact hl _ (by simp) rfl
      simp [serverLoop, ih, acceptCalls, hne]

theorem accepts_split (l : List Accept) :
    (∀ a ∈ l, a ≠ Accept.fail EINTR SIGINT) ∨
      ∃ pre post, l = pre ++ Accept.fail EINTR SIGINT :: post ∧
        ∀ a ∈ pre, a ≠ Accept.fail EINTR SIGINT := by
  induction l with
  | nil => left; simp
  | cons a l ih =>
    by_cases ha : a = Accept.fail EINTR SIGINT
    · right
      exact ⟨[], l, by simp [ha], by simp⟩
    · rcases ih with h | ⟨pre, post, h1, h2⟩
      · left
        intro x hx
        rcases List.mem_cons.mp hx with rfl | hx
        · exact ha
        · exact h x hx
      · right
        refine ⟨a :: pre, post, by simp [h1], ?_⟩
        intro x hx
        rcases List.mem_cons.mp hx with rfl | hx
        · exact ha
        · exact h2 x hx

theorem dispatched_acceptCalls (fd : Int) (l : List Accept) :
    (l.flatMap (acceptCalls fd)).filterMap dispatched = l.filterMap accepted := by
  induction l with
  | nil => rfl
  | cons a l ih =>
    cases a with
    | ok cfd => simp [acceptCalls, dispatched, accepted, ih, List.filterMap_cons]
    | fail e sg => simp [acceptCalls, dispatched, accepted, ih, List.filterMap_cons]

theorem exitCode_acceptCalls (fd : Int) (l : List Accept) :
    exitCode (l.flatMap (acceptCalls fd)) = none := by
  induction l with
  | nil => rfl
  | cons a l ih =>
    unfold exitCode at ih ⊢
    cases a with
    | ok cfd => simp [acceptCalls, ih, List.findSome?_cons]
    | fail e sg => simp [acceptCalls, ih, List.findSome?_cons]

theorem main_started (b : Boot) (hsig : 0 ≤ b.sigaction) (hargc : b.argc = 3)
    (hmem : b.h_name_ok = true) (hopen : 0 ≤ b.open_listen) (hka : 0 ≤ b.keepalive)
    (hpool : b.pool_init = 0) :
    main b = startCalls b ++ (serverLoop b.server_fd b.accepts).1 ++
      (if (serverLoop b.server_fd b.accepts).2 then
        [.pool_free, .user_free_all, .socket_close b.server_fd, .exit EXIT_SUCCESS]
      else []) := by
  have h1 : ¬ b.sigaction < 0 := by omega
  have h2 : ¬ b.open_listen < 0 := by omega
  have h3 : ¬ b.keepalive < 0 := by omega
  simp [main, startCalls, h1, h2, h3, hargc, hmem, hpool]

/-- C7: once start-up has succeeded, for every finite sequence of accept
outcomes the loop of `main` calls `robin_thread_pool_dispatch` once for each
successfully accepted descriptor, in accept order, and not for a failed accept.
It goes on accepting after a failure other than `EINTR` with `SIGINT` recorded;
at the first failure that is one, it leaves the loop and calls
`robin_thread_pool_free`, `robin_user_free_all` and `socket_close(server_fd)`
in that order and exits, with no accept or dispatch for the outcomes after it.
Without such a failure every outcome is consumed and nothing is torn down. -/
theorem acceptor_loop_dispatches_in_order (b : Boot) (hsig : 0 ≤ b.sigaction)
    (hargc : b.argc = 3) (hmem : b.h_name_ok = true) (hopen : 0 ≤ b.open_listen)
    (hka : 0 ≤ b.keepalive) (hpool : b.pool_init = 0) :
    (∀ pre post : List Accept, b.accepts = pre ++ Accept.fail EINTR SIGINT :: post →
      (∀ a ∈ pre, a ≠ Accept.fail EINTR SIGINT) →
        main b = startCalls b ++ pre.flatMap (acceptCalls b.server_fd) ++
          [.accept b.server_fd, .pool_free, .user_free_all, .socket_close b.server_fd,
            .exit EXIT_SUCCESS] ∧
        (main b).filterMap dispatched = pre.filterMap accepted) ∧
    ((∀ a ∈ b.accepts, a ≠ Accept.fail EINTR SIGINT) →
        main b = startCalls b ++ b.accepts.flatMap (acceptCalls b.server_fd) ∧
        (main b).filterMap dispatched = b.accepts.filterMap accepted) := by
  have hm := main_started b hsig hargc hmem hopen hka hpool
  constructor
  · intro pre post hacc hpre
    rw [hacc, serverLoop_interrupted _ pre post hpre] at hm
    have hmain : main b = startCalls b ++ pre.flatMap (acceptCalls b.server_fd) ++
        [.accept b.server_fd, .pool_free, .user_free_all, .socket_close b.server_fd,
          .exit EXIT_SUCCESS] := by
      rw [hm]
      simp
    refine ⟨hmain, ?_⟩
    rw [hmain, List.filterMap_append, List.filterMap_append, dispatched_acceptCalls]
    simp [startCalls, dispatched, List.filterMap_cons]
  · intro hall
    rw [serverLoop_running _ _ hall] at hm
    have hmain : main b = startCalls b ++ b.accepts.flatMap (acceptCalls b.server_fd) := by
      rw [hm]
      simp
    refine ⟨hmain, ?_⟩
    rw [hmain, List.filterMap_append, dispatched_acceptCalls]
    simp [startCalls, dispatched, List.filterMap_cons]

/-- Witness for C7: two clients are accepted around a failed accept, then
`SIGINT` interrupts the accept; the outcome after it is not consumed. -/
theorem acceptor_loop_dispatches_in_order_witness :
    main { sigaction := 0, argc := 3, h_name_ok := true, open_listen := 0, server_fd := 3,
           keepalive := 0, pool_init := 0,
           accepts := [.ok 4, .fail 11 0, .ok 5, .fail EINTR SIGINT, .ok 6] } =
      [.sigaction, .open_listen, .set_keepalive 3 10 10 6, .pool_init,
        .accept 3, .dispatch 4, .accept 3, .accept 3, .dispatch 5,
        .accept 3, .pool_free, .user_free_all, .socket_close 3, .exit 0] :=
  ((acceptor_loop_dispatches_in_order
    { sigaction := 0, argc := 3, h_name_ok := true, open_listen := 0, server_fd := 3,
      keepalive := 0, pool_init := 0,
      accepts := [.ok 4, .fail 11 0, .ok 5, .fail EINTR SIGINT, .ok 6] }
    (by decide) rfl rfl (by decide) (by decide) rfl).1
    [.ok 4, .fail 11 0, .ok 5] [.ok 6] rfl (by decide)).1

/-- C8: `main` exits with a non-zero code, without any accept or dispatch,
when start-up fails: `argc` is not 3, `socket_open_listen` fails,
`socket_set_keepalive` fails, or `robin_thread_pool_init` returns non-zero.
It exits with code 0 only when start-up succeeded and the loop was left at an
accept interrupted by `SIGINT`, after the tear-down calls. -/
theorem main_exit_code (b : Boot) :
    ((b.argc ≠ 3 ∨ b.open_listen < 0 ∨ b.keepalive < 0 ∨ b.pool_init ≠ 0) →
      exitCode (main b) = some EXIT_FAILURE ∧ EXIT_FAILURE ≠ 0 ∧
        ∀ e ∈ main b, (∀ fd, e ≠ Event.accept fd) ∧ (∀ fd, e ≠ Event.dispatch fd)) ∧
    (exitCode (main b) = some 0 →
      (0 ≤ b.sigaction ∧ b.argc = 3 ∧ b.h_name_ok = true ∧ 0 ≤ b.open_listen ∧
        0 ≤ b.keepalive ∧ b.pool_init = 0) ∧
      ∃ pre post : List Accept, b.accepts = pre ++ Accept.fail EINTR SIGINT :: post ∧
        (∀ a ∈ pre, a ≠ Accept.fail EINTR SIGINT) ∧
        main b = startCalls b ++ pre.flatMap (acceptCalls b.server_fd) ++
          [.accept b.server_fd, .pool_free, .user_free_all, .socket_close b.server_fd,
            .exit EXIT_SUCCESS]) := by
  constructor
  · intro hfail
    unfold main
    split
    · simp [exitCode, EXIT_FAILURE]
    split
    · simp [exitCode, EXIT_FAILURE]
    split
    · simp [exitCode, EXIT_FAILURE]
    split
    · simp [exitCode, EXIT_FAILURE]
    split
    · simp [exitCode, EXIT_FAILURE]
    split
    · simp [exitCode, EXIT_FAILURE]
    · exfalso
      rcases hfail with h | h | h | h
      all_goals contradiction
  · intro hexit
    by_cases hok : 0 ≤ b.sigaction ∧ b.argc = 3 ∧ b.h_name_ok = true ∧ 0 ≤ b.open_listen ∧
        0 ≤ b.keepalive ∧ b.pool_init = 0
    · refine ⟨hok, ?_⟩
      obtain ⟨hsig, hargc, hmem, hopen, hka, hpool⟩ := hok
      have hm := main_started b hsig hargc hmem hopen hka hpool
      rcases accepts_split b.accepts with hall | ⟨pre, post, hacc, hpre⟩
      · exfalso
        rw [serverLoop_running _ _ hall] at hm
        rw [hm] at hexit
        simp only [Bool.false_eq_true, if_false, List.append_nil] at hexit
        have h2 := exitCode_acceptCalls b.server_fd b.accepts
        unfold exitCode at hexit h2
        rw [List.findSome?_append, h2] at hexit
        simp [startCalls] at hexit
      · refine ⟨pre, post, hacc, hpre, ?_⟩
        rw [hacc, serverLoop_interrupted _ pre post hpre] at hm
        rw [hm]
        simp
    · exfalso
      revert hexit
      unfold main
      split
      · simp [exitCode, EXIT_FAILURE]
      split
      · simp [exitCode, EXIT_FAILURE]
      split
      · simp [exitCode, EXIT_FAILURE]
      split
      · simp [exitCode, EXIT_FAILURE]
      split
      · simp [exitCode, EXIT_FAILURE]
      split
      · simp [exitCode, EXIT_FAILURE]
      · exfalso
        apply hok
        simp_all

/-- Witness for C8: with two arguments missing `main` exits with code 1 right
after installing the signal handler. -/
theorem main_exit_code_witness :
    exitCode (main { sigaction := 0, argc := 1, h_name_ok := true, open_listen := 0,
                     server_fd := 3, keepalive := 0, pool_init := 0,
                     accepts := [.ok 4] }) = some 1 :=
  ((main_exit_code { sigaction := 0, argc := 1, h_name_ok := true, open_listen := 0,
                     server_fd := 3, keepalive := 0, pool_init := 0,
                     accepts := [.ok 4] }).1 (Or.inl (by decide))).1

end Robin
